import Mathlib

/-!
Shallow embedding of the federation core of the microblog server
(src/federation.ts, src/mentions.ts, src/database.ts and the Kysely
migrations file) together with proofs about the claims on its
specification.

The database is modelled as explicit in-memory tables; each SQL statement
becomes a function from the database state.  A statement that can raise an
SQLite constraint error returns `Except (String × DB) …`; the error carries
the state at the point of failure (SQLite autocommits statement by
statement, and none of the modelled handlers opens a transaction).
Timestamps (`created`, `updated`, `CURRENT_TIMESTAMP`) are modelled as a
`now : Nat` argument.  Foreign-key checks are not modelled: every id the
modelled code stores is read off an existing row immediately beforehand.
-/

namespace Microblog

/-- Row of the `users` table (migrations: id, username, password_hash; the
password hash plays no role in the federation core). -/
structure UserRow where
  id : Nat
  username : String
deriving DecidableEq, Repr

/-- Row of the `actors` table, restricted to the columns the federation core
reads or writes (`bio`, `location`, `website`, `avatar_data`, `header_data`
are never touched by it). -/
structure ActorRow where
  id : Nat
  user_id : Option Nat
  uri : String
  handle : String
  name : Option String
  inbox_url : String
  shared_inbox_url : Option String
  url : Option String
  created : Nat
  updated : Nat
deriving DecidableEq, Repr

/-- Row of the `follows` table.  The migrations declare
`PRIMARY KEY (following_id, follower_id)`. -/
structure FollowRow where
  following_id : Nat
  follower_id : Nat
  created : Nat
deriving DecidableEq, Repr

/-- Row of the `posts` table as created by `createTables`
(id, uri, actor_id, content, url, created — note: no `media_type` column). -/
structure PostRow where
  id : Nat
  uri : String
  actor_id : Nat
  content : String
  url : Option String
  created : Nat
deriving DecidableEq, Repr

/-- Row of the `mentions` table. -/
structure MentionRow where
  id : Nat
  post_id : Nat
  mentioned_actor_id : Nat
  created : Nat
deriving DecidableEq, Repr

/-- The notification kinds declared by `NotificationsTable` in
src/database.ts: `"mention" | "follow" | "like" | "direct"`. -/
inductive NotifType where
  | mention
  | follow
  | like
  | direct
deriving DecidableEq, Repr

/-- Row of the `notifications` table. -/
structure NotifRow where
  id : Nat
  recipient_actor_id : Nat
  type : NotifType
  related_post_id : Option Nat
  related_actor_id : Option Nat
  message : String
  is_read : Nat
  created : Nat
deriving DecidableEq, Repr

/-- The database state: one list per table (in insertion order, which is the
rowid order SQLite scans), plus the autoincrement counters. -/
structure DB where
  users : List UserRow
  actors : List ActorRow
  follows : List FollowRow
  posts : List PostRow
  mentions : List MentionRow
  notifications : List NotifRow
  nextActorId : Nat
  nextPostId : Nat
  nextMentionId : Nat
  nextNotifId : Nat
deriving DecidableEq, Repr

/-- A remote actor document as the handlers see it after
`follow.getActor()` / `object.getAttribution()` plus `getActorHandle`:
`id`/`inboxId` may be absent (checked by `persistActor`), `handle` is the
computed `@user@host` handle, `url` collapses the `URL | string | null`
cases of the source to an optional string. -/
structure APActor where
  id : Option String
  inboxId : Option String
  handle : String
  name : Option String
  sharedInbox : Option String
  url : Option String
deriving DecidableEq, Repr

/-- Result of `ctx.parseUri` on an URI: either a local actor identifier or
anything else (`null` is `Option.none` at the call sites). -/
inductive ParsedUri where
  | actor (identifier : String)
  | other
deriving DecidableEq, Repr

/-- Structural prefix test on character lists (kept executable down to the
kernel, unlike the byte-level string primitives). -/
def charsLead : List Char → List Char → Bool
  | [], _ => true
  | _ :: _, [] => false
  | c :: cs, d :: ds => decide (c = d) && charsLead cs ds

/-- SQLite `LIKE 'https://%' OR LIKE 'http://%'` CHECK used on URL columns. -/
def likeHttp (s : String) : Bool :=
  charsLead "https://".data s.data || charsLead "http://".data s.data

/-- A CHECK on a nullable column passes when the value is NULL. -/
def optLikeHttp : Option String → Bool
  | none => true
  | some s => likeHttp s

/-- The CHECK constraints of the `actors` table on the columns
`persistActor` writes: `uri <> ''`, `handle <> ''`, and the http/https
shape of `inbox_url`, `shared_inbox_url`, `url`. -/
def actorRowOk (r : ActorRow) : Bool :=
  decide (r.uri ≠ "") && decide (r.handle ≠ "") && likeHttp r.inbox_url
    && optLikeHttp r.shared_inbox_url && optLikeHttp r.url

/-- UNIQUE collision for the `actors` table outside the upsert's conflict
target: some row with a different `uri` already holds the incoming `handle`
or the incoming `inbox_url` (both columns are declared UNIQUE). -/
def actorCollides (db : DB) (uri handle inbox : String) : Bool :=
  db.actors.any fun r =>
    decide (r.uri ≠ uri) && (decide (r.handle = handle) || decide (r.inbox_url = inbox))

/-- The row the upsert's `DO UPDATE SET` produces from the conflicting row
`r`: `handle`, `name`, `inbox_url`, `shared_inbox_url`, `url` overwritten
with the excluded (incoming) values, everything else kept. -/
def upsertRow (a : APActor) (inbox : String) (r : ActorRow) : ActorRow :=
  { r with handle := a.handle, name := a.name, inbox_url := inbox,
           shared_inbox_url := a.sharedInbox, url := a.url }

/-- The fresh row the upsert inserts when the `uri` is unseen; `user_id` is
never set by `persistActor` and the timestamps take their defaults. -/
def freshRow (now : Nat) (db : DB) (a : APActor) (uri inbox : String) : ActorRow :=
  { id := db.nextActorId, user_id := none, uri := uri, handle := a.handle,
    name := a.name, inbox_url := inbox, shared_inbox_url := a.sharedInbox,
    url := a.url, created := now, updated := now }

/-- Model of `persistActor` of src/federation.ts: returns `(none, db)` when the
document misses `id` or `inboxId` (the source returns `null` without
touching the database); otherwise runs
`INSERT INTO actors … ON CONFLICT (uri) DO UPDATE SET …` — an update of the
existing row when the `uri` is already present, an insert of a fresh row
otherwise; a CHECK failure or a UNIQUE collision on `handle`/`inbox_url`
raises. -/
def persistActor (now : Nat) (db : DB) (a : APActor) :
    Except (String × DB) (Option ActorRow × DB) :=
  match a.id, a.inboxId with
  | some uri, some inbox =>
    match db.actors.find? (fun r => decide (r.uri = uri)) with
    | some r =>
      if actorRowOk (upsertRow a inbox r) then
        if actorCollides db uri a.handle inbox then
          .error ("UNIQUE constraint failed: actors", db)
        else
          .ok (some (upsertRow a inbox r),
            { db with actors := db.actors.map fun x =>
                if x.uri = uri then upsertRow a inbox r else x })
      else .error ("CHECK constraint failed: actors", db)
    | none =>
      if actorRowOk (freshRow now db a uri inbox) then
        if actorCollides db uri a.handle inbox then
          .error ("UNIQUE constraint failed: actors", db)
        else
          .ok (some (freshRow now db a uri inbox),
            { db with actors := db.actors ++ [freshRow now db a uri inbox],
                      nextActorId := db.nextActorId + 1 })
      else .error ("CHECK constraint failed: actors", db)
  | _, _ => .ok (none, db)

/-- The statement `INSERT INTO follows (following_id, follower_id) VALUES (…)` exactly as
issued by the `Follow` and `Accept` inbox listeners: a plain insert with no
conflict clause, so a duplicate of the `(following_id, follower_id)`
primary key raises. -/
def insertFollow (now : Nat) (db : DB) (followingId followerId : Nat) :
    Except (String × DB) DB :=
  if db.follows.any (fun f =>
      decide (f.following_id = followingId) && decide (f.follower_id = followerId)) then
    .error ("UNIQUE constraint failed: follows.following_id, follows.follower_id", db)
  else
    .ok { db with follows := db.follows ++ [⟨followingId, followerId, now⟩] }

/-- The `actors INNER JOIN users ON users.id = actors.user_id WHERE
users.username = ?` lookup used by the inbox listeners to find the local
actor of a username. -/
def findLocalActor (db : DB) (username : String) : Option ActorRow :=
  db.actors.find? fun a =>
    db.users.any fun u => decide (a.user_id = some u.id) && decide (u.username = username)

/-- An inbound `Follow` activity as the listener sees it: `objectId`,
`actorId`, and the result of `follow.getActor()` (`none` when the follower
cannot be fetched or is not an actor). -/
structure FollowActivity where
  objectId : Option String
  actorId : Option String
  actor : Option APActor
deriving DecidableEq, Repr

/-- The `Accept` reply built by the `Follow` listener:
`new Accept({ actor: follow.objectId, to: follow.actorId, object: follow })`,
sent via `ctx.sendActivity(object, follower, accept)`. -/
structure AcceptMsg where
  actor : Option String
  toUri : Option String
  object : FollowActivity
deriving DecidableEq, Repr

/-- The `Follow` inbox listener of src/federation.ts (lines 114–164):
drops the activity when the object is missing, does not parse as an actor
URI, or the follower cannot be fetched; otherwise looks up the local actor,
upserts the remote follower, inserts the follow edge when both ids were
found, and finally sends one `Accept` back — the send is reached even when
the local actor was not found or the upsert returned no row. -/
def handleFollow (pu : String → Option ParsedUri) (now : Nat) (db : DB)
    (fl : FollowActivity) : Except (String × DB) (DB × List AcceptMsg) :=
  match fl.objectId with
  | none => .ok (db, [])
  | some oid =>
    match pu oid with
    | some (ParsedUri.actor ident) =>
      match fl.actor with
      | none => .ok (db, [])
      | some follower =>
        match persistActor now db follower with
        | .error e => .error e
        | .ok (followerRow, db1) =>
          match findLocalActor db ident, followerRow with
          | some fa, some fr =>
            match insertFollow now db1 fa.id fr.id with
            | .error e => .error e
            | .ok db2 => .ok (db2, [⟨some oid, fl.actorId, fl⟩])
          | _, _ => .ok (db1, [⟨some oid, fl.actorId, fl⟩])
    | _ => .ok (db, [])

/-- An inbound `Accept` activity: the inner object (`some` exactly when it
is a `Follow`) and the accepting actor (`some` exactly when
`accept.getActor()` yields an actor). -/
structure AcceptActivity where
  object : Option FollowActivity
  actor : Option APActor
deriving DecidableEq, Repr

/-- The `Accept` inbox listener of src/federation.ts (lines 190–217):
requires the object to be a `Follow` with an actor URI parsing as a local
actor, upserts the accepting remote actor, looks the local follower up, and
inserts the follow edge (local follows remote) with the same bare insert as
the `Follow` listener. -/
def handleAccept (pu : String → Option ParsedUri) (now : Nat) (db : DB)
    (aa : AcceptActivity) : Except (String × DB) DB :=
  match aa.object with
  | none => .ok db
  | some follow =>
    match aa.actor with
    | none => .ok db
    | some following =>
      match follow.actorId with
      | none => .ok db
      | some followerUri =>
        match pu followerUri with
        | some (ParsedUri.actor ident) =>
          match persistActor now db following with
          | .error e => .error e
          | .ok (row, db1) =>
            match row with
            | none => .ok db1
            | some followingRow =>
              match findLocalActor db1 ident with
              | none => .ok db1
              | some followerActor => insertFollow now db1 followingRow.id followerActor.id
        | _ => .ok db

/-- Columns of the `posts` table created by `createTables` in the
migrations file. -/
def postsTableColumns : List String :=
  ["id", "uri", "actor_id", "content", "url", "created"]

/-- Columns named by the `Create` listener's
`insertInto('posts').values({ uri, actor_id, content, media_type, url })`. -/
def createNoteInsertColumns : List String :=
  ["uri", "actor_id", "content", "media_type", "url"]

/-- The insert statement issued by the `Create` listener.  It names a
`media_type` column that `createTables` never creates (and that
`PostsTable` in src/database.ts does not declare), so SQLite rejects the
whole statement before any row is stored; were the column present, the
insert would be a plain insert with a UNIQUE `uri`. -/
def insertPostFromCreate (now : Nat) (db : DB) (uri : String) (actorId : Nat)
    (content _mediaType : String) (url : Option String) : Except (String × DB) DB :=
  if createNoteInsertColumns.all (fun c => postsTableColumns.contains c) then
    if db.posts.any (fun p => decide (p.uri = uri)) then
      .error ("UNIQUE constraint failed: posts.uri", db)
    else
      .ok { db with posts := db.posts ++ [⟨db.nextPostId, uri, actorId, content, url, now⟩],
                    nextPostId := db.nextPostId + 1 }
  else
    .error ("table posts has no column named media_type", db)

/-- A remote `Note` as the `Create` listener sees it after
`create.getObject()`: its own id, content, media type, url, and the result
of `object.getAttribution()` (`none` when absent or not an actor). -/
structure NoteObject where
  id : Option String
  content : Option String
  mediaType : Option String
  url : Option String
  attribution : Option APActor
deriving DecidableEq, Repr

/-- An inbound `Create` activity: its actor URI and its object
(`some` exactly when the object is a `Note`). -/
structure CreateActivity where
  actorId : Option String
  object : Option NoteObject
deriving DecidableEq, Repr

/-- JavaScript `x || "text/html"`: the default kicks in on both a missing
and an empty media type. -/
def mediaTypeOrDefault : Option String → String
  | some m => if m = "" then "text/html" else m
  | none => "text/html"

/-- The `Create` inbox listener of src/federation.ts (lines 218–249):
requires a `Note` object, an actor, and an attributed author whose id
equals the activity's actor; upserts the author, then (only then) checks
the object id and content and attempts the post insert. -/
def handleCreate (now : Nat) (db : DB) (ca : CreateActivity) :
    Except (String × DB) DB :=
  match ca.object with
  | none => .ok db
  | some note =>
    match ca.actorId with
    | none => .ok db
    | some actorUri =>
      match note.attribution with
      | none => .ok db
      | some author =>
        if author.id ≠ some actorUri then .ok db
        else
          match persistActor now db author with
          | .error e => .error e
          | .ok (row, db1) =>
            match row with
            | none => .ok db1
            | some arow =>
              match note.id with
              | none => .ok db1
              | some oid =>
                match note.content with
                | none => .ok db1
                | some content =>
                  insertPostFromCreate now db1 oid arow.id content
                    (mediaTypeOrDefault note.mediaType) note.url

/-- JavaScript `x || null` on an optional string: the empty string also
collapses to NULL. -/
def jsOrNull : Option String → Option String
  | some s => if s = "" then none else some s
  | none => none

/-- A remote `Person` as the `Update` listener sees it. -/
structure PersonObject where
  id : Option String
  name : Option String
deriving DecidableEq, Repr

/-- An inbound `Update` activity: its actor URI and its object
(`some` exactly when the object is a `Person`). -/
structure UpdateActivity where
  actorId : Option String
  object : Option PersonObject
deriving DecidableEq, Repr

/-- The `Update` inbox listener of src/federation.ts (lines 250–289):
requires a `Person` object whose id equals the activity's actor; looks the
actor row up by `uri` and, when present, overwrites `name`
(`object.name?.toString() || null`) and `updated` on every row with the
found row's id; otherwise leaves the database unchanged. -/
def handleUpdate (now : Nat) (db : DB) (ua : UpdateActivity) : DB :=
  match ua.object with
  | none => db
  | some p =>
    match ua.actorId with
    | none => db
    | some actorUri =>
      if p.id ≠ some actorUri then db
      else
        match db.actors.find? (fun r => decide (r.uri = actorUri)) with
        | none => db
        | some r =>
          { db with actors := db.actors.map fun a =>
              if a.id = r.id then { a with name := jsOrNull p.name, updated := now } else a }

/-- A notification about to be inserted (`NewNotification` of
src/database.ts: everything but the generated id and timestamp). -/
structure NewNotifRow where
  recipient_actor_id : Nat
  type : NotifType
  related_post_id : Option Nat
  related_actor_id : Option Nat
  message : String
  is_read : Nat
deriving DecidableEq, Repr

/-- The CHECK constraints of the `notifications` table:
`type IN ('mention', 'follow', 'like')` — note that the migrations do NOT
allow `'direct'` although `NotificationsTable` declares it —
`message <> ''`, and `is_read IN (0, 1)`. -/
def notifRowOk (n : NewNotifRow) : Bool :=
  (decide (n.type = .mention) || decide (n.type = .follow) || decide (n.type = .like))
    && decide (n.message ≠ "") && (decide (n.is_read = 0) || decide (n.is_read = 1))

/-- The stored row an accepted `NewNotification` becomes, with its assigned
id and timestamp. -/
def notifRowOf (now rid : Nat) (n : NewNotifRow) : NotifRow :=
  ⟨rid, n.recipient_actor_id, n.type, n.related_post_id, n.related_actor_id,
   n.message, n.is_read, now⟩

/-- Append the accepted notification rows one after another, assigning
autoincremented ids. -/
def addNotifRows (now : Nat) : DB → List NewNotifRow → DB
  | db, [] => db
  | db, n :: ns =>
    addNotifRows now
      { db with notifications := db.notifications ++ [notifRowOf now db.nextNotifId n],
                nextNotifId := db.nextNotifId + 1 } ns

/-- A multi-row `INSERT INTO notifications … VALUES …`: SQLite applies the
statement atomically, so one bad row rejects the whole batch. -/
def insertNotifications (now : Nat) (db : DB) (rows : List NewNotifRow) :
    Except (String × DB) DB :=
  if rows.all notifRowOk then .ok (addNotifRows now db rows)
  else .error ("CHECK constraint failed: notifications", db)

/-- Append mention rows (one per mentioned actor id) with autoincremented
ids; the `mentions` table has no UNIQUE constraint, a plain append. -/
def addMentionRows (now postId : Nat) : DB → List Nat → DB
  | db, [] => db
  | db, i :: is =>
    addMentionRows now postId
      { db with mentions := db.mentions ++ [⟨db.nextMentionId, postId, i, now⟩],
                nextMentionId := db.nextMentionId + 1 } is

/-- Model of `saveMentions` of src/mentions.ts: reads the `mentioned_actor_id`s
already recorded for the post (`existingActorIds`), filters the incoming
actors down to the unseen ones, and inserts one row per remaining actor. -/
def saveMentions (now : Nat) (db : DB) (postId : Nat) (actorsIn : List ActorRow) : DB :=
  if actorsIn.isEmpty then db
  else
    addMentionRows now postId db
      ((actorsIn.filter fun a =>
        !(((db.mentions.filter fun m => decide (m.post_id = postId)).map
            fun m => m.mentioned_actor_id).contains a.id)).map fun a => a.id)

/-- The notification message text:
`` `${author.name || author.handle} mentioned you in a post` `` — the
JavaScript `||` falls back to the handle on a NULL and on an empty name. -/
def mentionMessage (author : ActorRow) : String :=
  (match author.name with
   | some n => if n = "" then author.handle else n
   | none => author.handle) ++ " mentioned you in a post"

/-- Model of `createMentionNotifications` of src/mentions.ts: looks the author up
(raising when absent), reads the recipients that already have a mention
notification for this `(post, author)` pair, and inserts one `mention`
notification per incoming actor that is neither the author nor already
notified. -/
def createMentionNotifications (now : Nat) (db : DB) (postId authorId : Nat)
    (actorsIn : List ActorRow) : Except (String × DB) DB :=
  if actorsIn.isEmpty then .ok db
  else
    match db.actors.find? (fun r => decide (r.id = authorId)) with
    | none => .error ("Failed to create mention notifications", db)
    | some author =>
      insertNotifications now db
        ((actorsIn.filter fun a => decide (a.id ≠ authorId)
            && !(((db.notifications.filter fun nr => decide (nr.type = NotifType.mention
                ∧ nr.related_post_id = some postId
                ∧ nr.related_actor_id = some authorId)).map
                fun nr => nr.recipient_actor_id).contains a.id)).map
          fun a => ⟨a.id, NotifType.mention, some postId, some authorId,
            mentionMessage author, 0⟩)

/-- Steps 3 and 4 of `processMentions` of src/mentions.ts with the
mentioned actors already resolved: `saveMentions` followed by
`createMentionNotifications` on the same actor list. -/
def processMentionsResolved (now : Nat) (db : DB) (postId authorId : Nat)
    (actorsIn : List ActorRow) : Except (String × DB) DB :=
  createMentionNotifications now (saveMentions now db postId actorsIn) postId authorId actorsIn

/-- The character class `[a-zA-Z0-9_.-]` of the mention regex. -/
def isNameChar (c : Char) : Bool :=
  c.isAlpha || c.isDigit || decide (c = '_') || decide (c = '.') || decide (c = '-')

/-- The character class `[a-zA-Z0-9.-]` of the domain part. -/
def isDomainChar (c : Char) : Bool :=
  c.isAlpha || c.isDigit || decide (c = '.') || decide (c = '-')

/-- The JavaScript `\s` class (the regex prefix is `[\s\n]`, which equals
`\s`): ASCII whitespace plus the Unicode space separators, line
separators and the BOM. -/
def isJsWs (c : Char) : Bool :=
  decide (c = ' ') || decide (c = '\t') || decide (c = '\n') || decide (c = '\x0b')
    || decide (c = '\x0c') || decide (c = '\r') || decide (c = ' ')
    || decide (c = ' ') || (decide (' ' ≤ c) && decide (c ≤ ' '))
    || decide (c = ' ') || decide (c = ' ') || decide (c = ' ')
    || decide (c = ' ') || decide (c = '　') || decide (c = '﻿')

/-- Backtracking search of the greedy `[a-zA-Z0-9.-]+\.[a-zA-Z]{2,}` tail
over the maximal domain-character run `run`: try the split points from the
longest chunk down (the engine shortens the greedy `+` one character at a
time), accepting the first index `k ≥ 1` whose character is the literal dot
and that is followed by at least two letters.  Trying indices above
`run.length - 1` is pointless: the character after the run is not a domain
character, hence not a dot. -/
def findDomSplit (run : List Char) : Nat → Option Nat
  | 0 => none
  | k + 1 =>
    if run.get? (k + 1) = some '.'
        ∧ 2 ≤ ((run.drop (k + 2)).takeWhile Char.isAlpha).length then
      some (k + 1)
    else findDomSplit run k

/-- Match the optional `(?:@[a-zA-Z0-9.-]+\.[a-zA-Z]{2,})?` group on the
text following the separator `@`; returns the matched domain characters
and the rest of the input.  The trailing `[a-zA-Z]{2,}` is greedy, so it
consumes the whole letter run after the chosen dot; since every letter is
a domain character, that run lies inside `run` and computing it there
agrees with computing it on the input. -/
def matchDomain (rest2 : List Char) : Option (List Char × List Char) :=
  let run := rest2.takeWhile isDomainChar
  match findDomSplit run (run.length - 1) with
  | none => none
  | some k =>
    let letters := (run.drop (k + 1)).takeWhile Char.isAlpha
    some (run.take k ++ '.' :: letters, rest2.drop (k + 1 + letters.length))

/-- Match the capture group `[a-zA-Z0-9_.-]+(?:@…)?` of the mention regex
on the text right after the `@`; returns the captured token and the rest of
the input.  The leading `+` is greedy and never needs to backtrack: name
characters exclude `@`, so shortening the run can never expose the `@` the
optional group needs, and with the group matching empty the full run
already succeeds. -/
def matchName (cs : List Char) : Option (String × List Char) :=
  let name := cs.takeWhile isNameChar
  if name.isEmpty then none
  else
    let after := cs.drop name.length
    match after with
    | '@' :: rest2 =>
      match matchDomain rest2 with
      | some (dom, rest3) => some (⟨name ++ '@' :: dom⟩, rest3)
      | none => some (⟨name⟩, after)
    | _ => some (⟨name⟩, after)

/-- The `mentionRegex.exec` loop of `parseMentions`: scan left to right; a
match may start at the string start (the `^` alternative, first position
only) or at a whitespace character followed by `@`; on a match, emit the
captured token and resume right after the match (the `lastIndex`
behaviour of a `g`-flagged regex); otherwise move one position forward.
`fuel` only bounds the recursion; every step consumes at least one
character, so `fuel = length` always suffices. -/
def scanAux : Nat → List Char → Bool → List String
  | 0, _, _ => []
  | _ + 1, [], _ => []
  | fuel + 1, c :: rest, atStart =>
    if atStart && decide (c = '@') then
      match matchName rest with
      | some (tok, rest2) => tok :: scanAux fuel rest2 false
      | none => scanAux fuel rest false
    else if isJsWs c then
      match rest with
      | c2 :: rest2 =>
        if c2 = '@' then
          match matchName rest2 with
          | some (tok, rest3) => tok :: scanAux fuel rest3 false
          | none => scanAux fuel rest false
        else scanAux fuel rest false
      | [] => scanAux fuel rest false
    else scanAux fuel rest false

/-- All raw captured tokens of the mention regex over a string, in match
order, duplicates included. -/
def scanTokens (s : String) : List String :=
  scanAux s.data.length s.data true

/-- The duplicate check of the `parseMentions` loop:
`if (!mentions.includes(username)) mentions.push(username)`. -/
def pushUnique (acc : List String) (t : String) : List String :=
  if t ∈ acc then acc else acc ++ [t]

/-- Model of `parseMentions` of src/mentions.ts: run the regex over the content and
collect each captured token once, in order of first appearance. -/
def parseMentions (content : String) : List String :=
  (scanTokens content).foldl pushUnique []

/-- Specification-side description of the duplicate collapsing: keep the
first occurrence of every token.  Stated for comparison with the
accumulator loop of the source. -/
def dedupFirst : List String → List String
  | [] => []
  | t :: ts => t :: dedupFirst (ts.filter fun u => decide (u ≠ t))
termination_by l => l.length
decreasing_by
  simp only [List.length_cons]
  exact Nat.lt_succ_of_le (List.length_filter_le _ _)

/-- Specification-side token grammar: `[a-zA-Z0-9_.-]+` optionally followed
by `@` and a domain whose TLD, the part after the last dot, is at least two
letters.  Stated for comparison with what the scanner produces. -/
def validDomainChars (ds : List Char) : Bool :=
  let rev := ds.reverse
  let tld := rev.takeWhile Char.isAlpha
  decide (2 ≤ tld.length) && decide ((rev.drop tld.length).head? = some '.')
    && !(rev.drop (tld.length + 1)).isEmpty
    && (rev.drop (tld.length + 1)).all isDomainChar

/-- A token matches the mention grammar: a nonempty run of name characters,
then either nothing or `@` plus a valid domain. -/
def validMentionToken (t : String) : Bool :=
  let cs := t.data
  let name := cs.takeWhile isNameChar
  let rest := cs.drop name.length
  !name.isEmpty
    && (rest.isEmpty
        || (decide (rest.head? = some '@') && validDomainChars (rest.drop 1)))

/-! ### Concrete fixtures

A small concrete deployment used by witnesses and counterexamples: one
local user `dave` with actor id 1, and the remote actor `carol`. -/

/-- Model of `ctx.parseUri` for the demo deployment: only dave's actor URI parses. -/
def parseDemo (s : String) : Option ParsedUri :=
  if s = "https://local.test/users/dave" then some (ParsedUri.actor "dave") else none

/-- The demo local user. -/
def daveUser : UserRow := ⟨1, "dave"⟩

/-- The demo local actor row. -/
def daveActor : ActorRow :=
  ⟨1, some 1, "https://local.test/users/dave", "@dave@local.test", some "Dave",
   "https://local.test/users/dave/inbox", some "https://local.test/inbox",
   some "https://local.test/users/dave", 0, 0⟩

/-- The demo database: dave registered, nothing else. -/
def demoDb : DB := ⟨[daveUser], [daveActor], [], [], [], [], 2, 1, 1, 1⟩

/-- The remote actor document of carol. -/
def carol : APActor :=
  ⟨some "https://remote.example/users/carol",
   some "https://remote.example/users/carol/inbox",
   "@carol@remote.example", some "Carol", none, none⟩

/-- Carol's actor row once persisted into `demoDb` at time 1. -/
def carolRow : ActorRow :=
  ⟨2, none, "https://remote.example/users/carol", "@carol@remote.example", some "Carol",
   "https://remote.example/users/carol/inbox", none, none, 1, 1⟩

/-- An inbound `Follow` of dave by carol. -/
def carolFollow : FollowActivity :=
  ⟨some "https://local.test/users/dave", some "https://remote.example/users/carol",
   some carol⟩

/-- The demo database after carol's follow of dave was accepted at time 1. -/
def dbAfterFollow : DB :=
  { demoDb with actors := [daveActor, carolRow], follows := [⟨1, 2, 1⟩], nextActorId := 3 }

/-- The `Accept` the demo follow provokes. -/
def demoAccept : AcceptMsg :=
  ⟨some "https://local.test/users/dave", some "https://remote.example/users/carol",
   carolFollow⟩

/-! ### Frame lemmas about the primitive statements -/

theorem persistActor_ok_frame {now : Nat} {db : DB} {a : APActor} {p : Option ActorRow}
    {db1 : DB} (h : persistActor now db a = .ok (p, db1)) :
    db1.users = db.users ∧ db1.follows = db.follows ∧ db1.posts = db.posts
      ∧ db1.mentions = db.mentions ∧ db1.notifications = db.notifications := by
  unfold persistActor at h
  split at h
  · split at h
    · split at h
      · split at h
        · exact Except.noConfusion h
        · simp only [Except.ok.injEq, Prod.mk.injEq] at h
          obtain ⟨-, hdb⟩ := h
          subst hdb
          exact ⟨rfl, rfl, rfl, rfl, rfl⟩
      · exact Except.noConfusion h
    · split at h
      · split at h
        · exact Except.noConfusion h
        · simp only [Except.ok.injEq, Prod.mk.injEq] at h
          obtain ⟨-, hdb⟩ := h
          subst hdb
          exact ⟨rfl, rfl, rfl, rfl, rfl⟩
      · exact Except.noConfusion h
  · simp only [Except.ok.injEq, Prod.mk.injEq] at h
    obtain ⟨-, hdb⟩ := h
    subst hdb
    exact ⟨rfl, rfl, rfl, rfl, rfl⟩

theorem persistActor_error_frame {now : Nat} {db : DB} {a : APActor} {e : String × DB}
    (h : persistActor now db a = .error e) : e.2 = db := by
  unfold persistActor at h
  split at h
  · split at h
    · split at h
      · split at h
        · simp only [Except.error.injEq] at h
          subst h; rfl
        · exact Except.noConfusion h
      · simp only [Except.error.injEq] at h
        subst h; rfl
    · split at h
      · split at h
        · simp only [Except.error.injEq] at h
          subst h; rfl
        · exact Except.noConfusion h
      · simp only [Except.error.injEq] at h
        subst h; rfl
  · exact Except.noConfusion h

/-- A successfully upserted actor row carries exactly the descriptor's
fields and sits in the resulting `actors` table. -/
theorem persistActor_some_spec {now : Nat} {db : DB} {a : APActor} {fr : ActorRow}
    {db1 : DB} (h : persistActor now db a = .ok (some fr, db1)) :
    fr ∈ db1.actors ∧ some fr.uri = a.id ∧ fr.handle = a.handle ∧ fr.name = a.name
      ∧ some fr.inbox_url = a.inboxId ∧ fr.shared_inbox_url = a.sharedInbox
      ∧ fr.url = a.url := by
  unfold persistActor at h
  split at h
  case h_1 uri inbox hid hib =>
    split at h
    case h_1 r hfind =>
      split at h
      · split at h
        · exact Except.noConfusion h
        · simp only [Except.ok.injEq, Prod.mk.injEq, Option.some.injEq] at h
          obtain ⟨hfr, hdb⟩ := h
          subst hfr
          subst hdb
          have hmem := List.mem_of_find?_eq_some hfind
          have huri : r.uri = uri := by
            have := List.find?_some hfind
            simpa using this
          refine ⟨?_, ?_, rfl, rfl, ?_, rfl, rfl⟩
          · have hstep : (fun x => if x.uri = uri then upsertRow a inbox r else x) r
                = upsertRow a inbox r := by
              simp [huri]
            have := List.mem_map_of_mem
              (fun x => if x.uri = uri then upsertRow a inbox r else x) hmem
            rw [hstep] at this
            simpa using this
          · simp [upsertRow, huri, hid]
          · simp [upsertRow, hib]
      · exact Except.noConfusion h
    case h_2 hfind =>
      split at h
      · split at h
        · exact Except.noConfusion h
        · simp only [Except.ok.injEq, Prod.mk.injEq, Option.some.injEq] at h
          obtain ⟨hfr, hdb⟩ := h
          subst hfr
          subst hdb
          refine ⟨by simp, ?_, rfl, rfl, ?_, rfl, rfl⟩
          · simp [freshRow, hid]
          · simp [freshRow, hib]
      · exact Except.noConfusion h
  case h_2 => simp at h

theorem insertFollow_ok {now : Nat} {db : DB} {x y : Nat} {db1 : DB}
    (h : insertFollow now db x y = .ok db1) :
    db1 = { db with follows := db.follows ++ [FollowRow.mk x y now] } := by
  unfold insertFollow at h
  split at h
  · exact Except.noConfusion h
  · simp only [Except.ok.injEq] at h
    exact h.symm

theorem insertFollow_error {now : Nat} {db : DB} {x y : Nat} {e : String × DB}
    (h : insertFollow now db x y = .error e) : e.2 = db := by
  unfold insertFollow at h
  split at h
  · simp only [Except.error.injEq] at h
    subst h; rfl
  · exact Except.noConfusion h

instance {ε α : Type} [DecidableEq ε] [DecidableEq α] : DecidableEq (Except ε α) :=
  fun x y =>
  match x, y with
  | .ok a, .ok b =>
    if h : a = b then .isTrue (by rw [h]) else .isFalse (fun hc => by cases hc; exact h rfl)
  | .ok _, .error _ => .isFalse (fun hc => Except.noConfusion hc)
  | .error _, .ok _ => .isFalse (fun hc => Except.noConfusion hc)
  | .error e, .error f =>
    if h : e = f then .isTrue (by rw [h]) else .isFalse (fun hc => by cases hc; exact h rfl)

/-- The notifications table of the state a `Follow` listener run ends in,
whether the run succeeded or raised. -/
def resultNotifications : Except (String × DB) (DB × List AcceptMsg) → List NotifRow
  | .ok (d, _) => d.notifications
  | .error (_, d) => d.notifications

/-- Demo fixture: `demoDb` with carol persisted (and nothing else). -/
def dbCarolPersisted : DB :=
  { demoDb with actors := [daveActor, carolRow], nextActorId := 3 }

/-- A remote note authored by carol. -/
def carolNote : NoteObject :=
  ⟨some "https://remote.example/notes/1", some "hello", none, none, some carol⟩

/-- A well-formed inbound `Create(Note)`: the attributed author is the
activity's actor. -/
def carolCreate : CreateActivity :=
  ⟨some "https://remote.example/users/carol", some carolNote⟩

/-- A spoofed inbound `Create(Note)`: the activity's actor differs from the
note's attributed author. -/
def spoofCreate : CreateActivity :=
  ⟨some "https://remote.example/users/mallory", some carolNote⟩

/-- A descriptor with a fresh URI but carol's handle. -/
def mallory : APActor :=
  ⟨some "https://remote.example/users/mallory",
   some "https://remote.example/users/mallory/inbox",
   "@carol@remote.example", none, none, none⟩

/-- Claim C2 (counterexample): processing the same inbound Follow twice is
not error-free — the first run of the demo follow succeeds, the second run
of the identical activity raises the uniqueness error of the
`(following_id, follower_id)` primary key instead of being a no-op. -/
theorem c2_counterexample_second_follow_raises :
    handleFollow parseDemo 1 demoDb carolFollow = .ok (dbAfterFollow, [demoAccept])
    ∧ handleFollow parseDemo 2 dbAfterFollow carolFollow
        = .error ("UNIQUE constraint failed: follows.following_id, follows.follower_id",
                  dbAfterFollow) := by
  exact ⟨rfl, rfl⟩

/-- Claim C2 (amended): the follow-edge insert is keyed by the
`(following_id, follower_id)` primary key, so at most one edge per pair can
ever exist, but a conflicting insert raises a uniqueness error with the
state unchanged — it is an error, not a no-op. -/
theorem c2_follow_insert_conflict (now : Nat) (db : DB) (x y : Nat) :
    ((∃ f ∈ db.follows, f.following_id = x ∧ f.follower_id = y) →
      insertFollow now db x y
        = .error ("UNIQUE constraint failed: follows.following_id, follows.follower_id", db))
    ∧ ((¬ ∃ f ∈ db.follows, f.following_id = x ∧ f.follower_id = y) →
      insertFollow now db x y = .ok { db with follows := db.follows ++ [FollowRow.mk x y now] }) := by
  have hiff : (db.follows.any fun f =>
      decide (f.following_id = x) && decide (f.follower_id = y)) = true
      ↔ (∃ f ∈ db.follows, f.following_id = x ∧ f.follower_id = y) := by
    simp [List.any_eq_true]
  constructor
  · intro hd
    unfold insertFollow
    rw [if_pos (hiff.mpr hd)]
  · intro hn
    unfold insertFollow
    rw [if_neg (fun hc => hn (hiff.mp hc))]

/-- Claim C2 (witness): the amended statement applied to the demo state in
which carol already follows dave. -/
theorem c2_follow_insert_conflict_witness :
    insertFollow 2 dbAfterFollow 1 2
      = .error ("UNIQUE constraint failed: follows.following_id, follows.follower_id",
                dbAfterFollow) :=
  (c2_follow_insert_conflict 2 dbAfterFollow 1 2).1
    ⟨⟨1, 2, 1⟩, List.mem_singleton.mpr rfl, rfl, rfl⟩

/-- Claim C3 (counterexample): the accepted demo follow of dave by carol
creates no notification at all — in particular no notification of kind
`follow` addressed to dave, contradicting the claim. -/
theorem c3_counterexample_no_follow_notification :
    handleFollow parseDemo 1 demoDb carolFollow = .ok (dbAfterFollow, [demoAccept])
    ∧ dbAfterFollow.notifications = []
    ∧ dbAfterFollow.notifications.countP
        (fun n => decide (n.type = NotifType.follow ∧ n.recipient_actor_id = 1)) = 0 := by
  exact ⟨rfl, rfl, rfl⟩

/-- Claim C3 (amended): the inbound Follow listener never touches the
notifications store — whatever the activity and whatever the outcome, the
notifications table after the run equals the one before; no follow
notification is ever created by it. -/
theorem c3_follow_listener_never_notifies (pu : String → Option ParsedUri) (now : Nat)
    (db : DB) (fl : FollowActivity) :
    resultNotifications (handleFollow pu now db fl) = db.notifications := by
  obtain ⟨objectId, actorId, actorF⟩ := fl
  unfold handleFollow
  cases objectId with
  | none => rfl
  | some oid =>
    dsimp only
    cases hpu : pu oid with
    | none => rfl
    | some pr =>
      cases pr with
      | other => rfl
      | actor ident =>
        dsimp only
        cases actorF with
        | none => rfl
        | some follower =>
          dsimp only
          cases hp : persistActor now db follower with
          | error e =>
            obtain ⟨m, d⟩ := e
            have he : d = db := persistActor_error_frame hp
            simp only [resultNotifications, he]
          | ok pr2 =>
            obtain ⟨followerRow, db1⟩ := pr2
            have hf : db1.notifications = db.notifications :=
              (persistActor_ok_frame hp).2.2.2.2
            dsimp only
            cases hfa : findLocalActor db ident with
            | none =>
              cases followerRow <;> simpa only [resultNotifications] using hf
            | some fa =>
              cases followerRow with
              | none => simpa only [resultNotifications] using hf
              | some fr =>
                dsimp only
                cases hins : insertFollow now db1 fa.id fr.id with
                | error e =>
                  obtain ⟨m, d⟩ := e
                  have he : d = db1 := insertFollow_error hins
                  simp only [resultNotifications, he]
                  exact hf
                | ok db2 =>
                  have he := insertFollow_ok hins
                  simp only [resultNotifications, he]
                  exact hf

/-- Claim C4: the notifications CHECK constraint allows only the kinds
`mention`, `follow`, `like` — an insert of each of those succeeds, while an
insert of kind `direct` (declared valid by `NotificationsTable` in
src/database.ts) raises a CHECK violation and stores nothing. -/
theorem c4_direct_kind_rejected_by_schema :
    insertNotifications 1 demoDb
        [⟨1, NotifType.direct, none, some 2, "You have a new direct message", 0⟩]
      = .error ("CHECK constraint failed: notifications", demoDb)
    ∧ (insertNotifications 1 demoDb
        [⟨1, NotifType.mention, some 1, some 2, "m", 0⟩]).isOk = true
    ∧ (insertNotifications 1 demoDb
        [⟨1, NotifType.follow, none, some 2, "m", 0⟩]).isOk = true
    ∧ (insertNotifications 1 demoDb
        [⟨1, NotifType.like, some 1, some 2, "m", 0⟩]).isOk = true
    ∧ (∀ n : NewNotifRow, notifRowOk n = true →
        n.type = NotifType.mention ∨ n.type = NotifType.follow ∨ n.type = NotifType.like) := by
  refine ⟨rfl, rfl, rfl, rfl, ?_⟩
  intro n h
  obtain ⟨r, t, rp, ra, m, ir⟩ := n
  cases t <;> simp_all [notifRowOk]

/-- Claim C4 (witness): the universally quantified part applied to a
concrete admissible row. -/
theorem c4_direct_kind_rejected_by_schema_witness :
    NewNotifRow.type ⟨1, NotifType.follow, none, some 2, "m", 0⟩ = NotifType.mention
    ∨ NewNotifRow.type ⟨1, NotifType.follow, none, some 2, "m", 0⟩ = NotifType.follow
    ∨ NewNotifRow.type ⟨1, NotifType.follow, none, some 2, "m", 0⟩ = NotifType.like :=
  c4_direct_kind_rejected_by_schema.2.2.2.2 ⟨1, NotifType.follow, none, some 2, "m", 0⟩ rfl

/-- Claim C8: on a well-formed inbound `Create(Note)` whose author matches
the actor, the listener persists the author but the post insert itself
raises — it names a `media_type` column absent from the `posts` schema — so
no Post row is ever stored; and on a spoofed `Create` the state is
untouched. -/
theorem c8_create_note_insert_fails :
    handleCreate 1 demoDb carolCreate
        = .error ("table posts has no column named media_type", dbCarolPersisted)
    ∧ dbCarolPersisted.posts = demoDb.posts
    ∧ (∃ r ∈ dbCarolPersisted.actors, r.uri = "https://remote.example/users/carol")
    ∧ handleCreate 1 demoDb spoofCreate = .ok demoDb := by
  exact ⟨rfl, rfl,
    ⟨carolRow, List.mem_cons_of_mem _ (List.mem_singleton.mpr rfl), rfl⟩, rfl⟩

/-- Claim C10: `persistActor` on a descriptor with an unseen URI whose
handle or inbox URI collides with an existing row of a different URI takes
the plain-insert path, and the UNIQUE constraint on `handle`/`inbox_url`
raises with the state unchanged — the upsert recovers only from conflicts
on `uri`. -/
theorem c10_cross_uri_collision_raises (now : Nat) (db : DB) (d : APActor)
    (uri inbox : String) (hid : d.id = some uri) (hib : d.inboxId = some inbox)
    (hfresh : db.actors.find? (fun r => decide (r.uri = uri)) = none)
    (hok : actorRowOk (freshRow now db d uri inbox) = true)
    (hcol : actorCollides db uri d.handle inbox = true) :
    persistActor now db d = .error ("UNIQUE constraint failed: actors", db) := by
  unfold persistActor
  rw [hid, hib]
  simp only [hfresh, hok, hcol, if_true]

/-- Claim C10 (witness): the descriptor `mallory` carries a fresh URI but
carol's handle; upserting it into the demo state where carol exists
raises. -/
theorem c10_cross_uri_collision_raises_witness :
    persistActor 2 dbCarolPersisted mallory
      = .error ("UNIQUE constraint failed: actors", dbCarolPersisted) :=
  c10_cross_uri_collision_raises 2 dbCarolPersisted mallory
    "https://remote.example/users/mallory" "https://remote.example/users/mallory/inbox"
    rfl rfl rfl rfl rfl

/-- Claim C1: an inbound Follow whose object is present, parses as the
identifier of an existing local actor, and whose sender is fetchable (and
persistable) adds the remote follower to the actors store, adds exactly the
one follow edge (local actor following-side, remote actor follower-side),
and sends exactly one Accept addressed back to the requester; a Follow with
a missing object, an unparseable or non-actor object, or an unfetchable
sender is dropped with no reply and no state change. -/
theorem c1_follow_listener_spec (pu : String → Option ParsedUri) (now : Nat) (db : DB)
    (fl : FollowActivity) :
    ((fl.objectId = none
        ∨ (∃ oid, fl.objectId = some oid ∧ (pu oid = none ∨ pu oid = some ParsedUri.other))
        ∨ fl.actor = none) →
      handleFollow pu now db fl = .ok (db, []))
    ∧
    (∀ oid ident la follower fr db1,
      fl.objectId = some oid →
      pu oid = some (ParsedUri.actor ident) →
      fl.actor = some follower →
      findLocalActor db ident = some la →
      persistActor now db follower = .ok (some fr, db1) →
      (db.follows.any fun f =>
        decide (f.following_id = la.id) && decide (f.follower_id = fr.id)) = false →
      handleFollow pu now db fl
          = .ok ({ db1 with follows := db1.follows ++ [FollowRow.mk la.id fr.id now] },
                 [⟨some oid, fl.actorId, fl⟩])
        ∧ fr ∈ db1.actors ∧ some fr.uri = follower.id ∧ fr.handle = follower.handle
        ∧ fr.name = follower.name ∧ some fr.inbox_url = follower.inboxId
        ∧ fr.shared_inbox_url = follower.sharedInbox ∧ fr.url = follower.url) := by
  obtain ⟨objectId, actorId, actorF⟩ := fl
  constructor
  · intro h
    rcases h with h | ⟨oid, hoid, hpu⟩ | h
    · simp only at h
      subst h
      rfl
    · simp only at hoid
      subst hoid
      unfold handleFollow
      dsimp only
      rcases hpu with hpu | hpu <;> rw [hpu]
    · simp only at h
      subst h
      unfold handleFollow
      cases objectId with
      | none => rfl
      | some oid =>
        dsimp only
        cases pu oid with
        | none => rfl
        | some pr => cases pr <;> rfl
  · intro oid ident la follower fr db1 hobj hpu hact hla hp hnew
    simp only at hobj hact
    subst hobj
    subst hact
    unfold handleFollow
    dsimp only
    rw [hpu]
    dsimp only
    rw [hp]
    dsimp only
    rw [hla]
    dsimp only
    have hfol : db1.follows = db.follows := (persistActor_ok_frame hp).2.1
    have hins : insertFollow now db1 la.id fr.id
        = .ok { db1 with follows := db1.follows ++ [FollowRow.mk la.id fr.id now] } := by
      unfold insertFollow
      rw [if_neg]
      rw [hfol, hnew]
      simp
    rw [hins]
    exact ⟨rfl, persistActor_some_spec hp⟩

/-- Claim C1 (witness): the demo follow of dave by carol, accepted end to
end. -/
theorem c1_follow_listener_spec_witness :
    handleFollow parseDemo 1 demoDb carolFollow
      = .ok ({ dbCarolPersisted with
                follows := dbCarolPersisted.follows ++ [FollowRow.mk 1 2 1] },
             [⟨some "https://local.test/users/dave", carolFollow.actorId, carolFollow⟩])
    ∧ carolRow ∈ dbCarolPersisted.actors ∧ some carolRow.uri = carol.id
    ∧ carolRow.handle = carol.handle ∧ carolRow.name = carol.name
    ∧ some carolRow.inbox_url = carol.inboxId
    ∧ carolRow.shared_inbox_url = carol.sharedInbox ∧ carolRow.url = carol.url :=
  (c1_follow_listener_spec parseDemo 1 demoDb carolFollow).2
    "https://local.test/users/dave" "dave" daveActor carol carolRow dbCarolPersisted
    rfl rfl rfl rfl rfl rfl

/-- Claim C9: an inbound Update(Person) whose object identity equals the
activity's actor and whose actor row exists rewrites only that row's
display name and updated timestamp — every other column of the row, every
other row, and every other table are unchanged, and no row is created;
on an identity mismatch, a missing object or actor, or an unknown URI the
whole database is untouched. -/
theorem c9_update_person_frame (now : Nat) (db : DB) (ua : UpdateActivity) :
    ((ua.object = none
        ∨ ua.actorId = none
        ∨ (∃ p u, ua.object = some p ∧ ua.actorId = some u ∧ p.id ≠ some u)
        ∨ (∃ p u, ua.object = some p ∧ ua.actorId = some u ∧ p.id = some u
            ∧ db.actors.find? (fun r => decide (r.uri = u)) = none)) →
      handleUpdate now db ua = db)
    ∧
    (∀ p u r, ua.object = some p → ua.actorId = some u → p.id = some u →
      db.actors.find? (fun r2 => decide (r2.uri = u)) = some r →
      handleUpdate now db ua
          = { db with actors := db.actors.map fun a =>
              if a.id = r.id then { a with name := jsOrNull p.name, updated := now }
              else a }
        ∧ (handleUpdate now db ua).actors.length = db.actors.length
        ∧ (handleUpdate now db ua).users = db.users
        ∧ (handleUpdate now db ua).follows = db.follows
        ∧ (handleUpdate now db ua).posts = db.posts
        ∧ (handleUpdate now db ua).mentions = db.mentions
        ∧ (handleUpdate now db ua).notifications = db.notifications
        ∧ ∀ a ∈ db.actors, ∃ b ∈ (handleUpdate now db ua).actors,
            b.id = a.id ∧ b.uri = a.uri ∧ b.handle = a.handle
              ∧ b.inbox_url = a.inbox_url ∧ b.shared_inbox_url = a.shared_inbox_url
              ∧ b.url = a.url ∧ b.user_id = a.user_id ∧ b.created = a.created
              ∧ (a.id ≠ r.id → b = a)) := by
  obtain ⟨actorId, object⟩ := ua
  constructor
  · intro h
    rcases h with h | h | ⟨p, u, hobj, hu, hne⟩ | ⟨p, u, hobj, hu, heq, hfind⟩
    · simp only at h
      subst h
      rfl
    · simp only at h
      subst h
      unfold handleUpdate
      cases object with
      | none => rfl
      | some p => rfl
    · simp only at hobj hu
      subst hobj
      subst hu
      unfold handleUpdate
      dsimp only
      rw [if_pos hne]
    · simp only at hobj hu
      subst hobj
      subst hu
      unfold handleUpdate
      dsimp only
      rw [if_neg (fun hc => hc heq), hfind]
  · intro p u r hobj hu hpid hfind
    simp only at hobj hu
    subst hobj
    subst hu
    have hmain : handleUpdate now db ⟨some u, some p⟩
        = { db with actors := db.actors.map fun a =>
            if a.id = r.id then { a with name := jsOrNull p.name, updated := now }
            else a } := by
      unfold handleUpdate
      dsimp only
      rw [if_neg (fun hc => hc hpid), hfind]
    refine ⟨hmain, ?_, ?_, ?_, ?_, ?_, ?_, ?_⟩
    · rw [hmain]; exact List.length_map _ _
    · rw [hmain]
    · rw [hmain]
    · rw [hmain]
    · rw [hmain]
    · rw [hmain]
    · intro a ha
      rw [hmain]
      refine ⟨if a.id = r.id then { a with name := jsOrNull p.name, updated := now }
        else a, List.mem_map_of_mem _ ha, ?_⟩
      by_cases hid : a.id = r.id
      · rw [if_pos hid]
        exact ⟨rfl, rfl, rfl, rfl, rfl, rfl, rfl, rfl, fun hne => absurd hid hne⟩
      · rw [if_neg hid]
        exact ⟨rfl, rfl, rfl, rfl, rfl, rfl, rfl, rfl, fun _ => rfl⟩

/-- Claim C9 (witness): carol updates her own display name in the demo
state; only her row's name and timestamp change. -/
theorem c9_update_person_frame_witness :
    handleUpdate 5 dbCarolPersisted
        ⟨some "https://remote.example/users/carol",
         some ⟨some "https://remote.example/users/carol", some "Carol Updated"⟩⟩
      = { dbCarolPersisted with actors := dbCarolPersisted.actors.map fun a =>
          if a.id = carolRow.id then
            { a with name := jsOrNull (some "Carol Updated"), updated := 5 }
          else a } :=
  ((c9_update_person_frame 5 dbCarolPersisted
      ⟨some "https://remote.example/users/carol",
       some ⟨some "https://remote.example/users/carol", some "Carol Updated"⟩⟩).2
    ⟨some "https://remote.example/users/carol", some "Carol Updated"⟩
    "https://remote.example/users/carol" carolRow rfl rfl rfl rfl).1

/-- Repeated application of `persistActor` to a sequence of descriptors,
threading the database; the first failure aborts (each upsert is its own
statement). -/
def persistSeq (now : Nat) : DB → List APActor → Except (String × DB) DB
  | db, [] => .ok db
  | db, d :: ds =>
    match persistActor now db d with
    | .error e => .error e
    | .ok (_, db1) => persistSeq now db1 ds

/-- The CHECK constraints of the actors table expressed on a descriptor
destined for `uri` (they do not depend on the database state). -/
def descriptorOk (uri : String) (d : APActor) : Bool :=
  decide (uri ≠ "") && decide (d.handle ≠ "")
    && (match d.inboxId with | some ib => likeHttp ib | none => false)
    && optLikeHttp d.sharedInbox && optLikeHttp d.url

/-- The UNIQUE collision test of `persistActor` expressed against an
explicit row list. -/
def collidesAgainst (rows : List ActorRow) (uri : String) (d : APActor) : Bool :=
  rows.any fun r => decide (r.uri ≠ uri)
    && (decide (r.handle = d.handle)
        || (match d.inboxId with | some ib => decide (r.inbox_url = ib) | none => false))

theorem actorRowOk_upsert {a : APActor} {inbox uri : String} {r : ActorRow}
    (hib : a.inboxId = some inbox) (huri : r.uri = uri) :
    actorRowOk (upsertRow a inbox r) = descriptorOk uri a := by
  simp only [actorRowOk, upsertRow, descriptorOk, hib, huri]

theorem actorRowOk_fresh {now : Nat} {db : DB} {a : APActor} {uri inbox : String}
    (hib : a.inboxId = some inbox) :
    actorRowOk (freshRow now db a uri inbox) = descriptorOk uri a := by
  simp only [actorRowOk, freshRow, descriptorOk, hib]

theorem actorCollides_eq {db : DB} {uri inbox : String} {a : APActor}
    (hib : a.inboxId = some inbox) :
    actorCollides db uri a.handle inbox = collidesAgainst db.actors uri a := by
  simp only [actorCollides, collidesAgainst, hib]

/-- An `any` test guarded by `uri ≠` only looks at the rows of other URIs. -/
theorem any_restrict (rows : List ActorRow) (uri : String) (q : ActorRow → Bool) :
    (rows.any fun r => decide (r.uri ≠ uri) && q r)
      = (rows.filter fun r => decide (r.uri ≠ uri)).any q := by
  induction rows with
  | nil => rfl
  | cons r rs ih =>
    by_cases h : r.uri = uri
    · simp [List.any_cons, List.filter_cons, h, ih]
    · simp [List.any_cons, List.filter_cons, h, ih]

theorem filter_map_update_eq (l : List ActorRow) (uri : String) (r2 : ActorRow)
    (h2 : r2.uri = uri) :
    ((l.map fun x => if x.uri = uri then r2 else x).filter
        fun x => decide (x.uri = uri))
      = (l.filter fun x => decide (x.uri = uri)).map fun _ => r2 := by
  induction l with
  | nil => rfl
  | cons x xs ih =>
    by_cases h : x.uri = uri
    · simp [List.filter_cons, h, h2, ih]
    · simp [List.filter_cons, h, ih]

theorem filter_map_update_ne (l : List ActorRow) (uri : String) (r2 : ActorRow)
    (h2 : r2.uri = uri) :
    ((l.map fun x => if x.uri = uri then r2 else x).filter
        fun x => decide (x.uri ≠ uri))
      = l.filter fun x => decide (x.uri ≠ uri) := by
  induction l with
  | nil => rfl
  | cons x xs ih =>
    simp only [ne_eq, decide_not] at ih ⊢
    by_cases h : x.uri = uri
    · simp [List.filter_cons, h, h2, ih]
    · simp [List.filter_cons, h, ih]

theorem singleton_of_length_le_one {α : Type} {l : List α} {a : α}
    (hlen : l.length ≤ 1) (ha : a ∈ l) : l = [a] := by
  match l with
  | [] => cases ha
  | [x] =>
    rw [List.mem_singleton] at ha
    rw [ha]
  | x :: y :: xs => simp at hlen

/-- One `persistActor` aimed at `uri` on a database holding at most one row
of that URI: it succeeds, afterwards exactly one row of that URI exists and
carries the descriptor's fields, and the rows of all other URIs are
untouched. -/
theorem persistActor_target {now : Nat} {db : DB} {uri : String} {d : APActor}
    {ib : String} (hid : d.id = some uri) (hib : d.inboxId = some ib)
    (hok : descriptorOk uri d = true)
    (hcol : collidesAgainst db.actors uri d = false)
    (huniq : (db.actors.filter fun x => decide (x.uri = uri)).length ≤ 1) :
    ∃ r db1, persistActor now db d = .ok (some r, db1)
      ∧ (db1.actors.filter fun x => decide (x.uri = uri)) = [r]
      ∧ r.uri = uri ∧ r.handle = d.handle ∧ r.name = d.name ∧ r.inbox_url = ib
      ∧ r.shared_inbox_url = d.sharedInbox ∧ r.url = d.url
      ∧ (db1.actors.filter fun x => decide (x.uri ≠ uri))
          = (db.actors.filter fun x => decide (x.uri ≠ uri))
      ∧ db1.follows = db.follows ∧ db1.notifications = db.notifications := by
  have hcol2 : actorCollides db uri d.handle ib = false := by
    rw [actorCollides_eq hib]
    exact hcol
  unfold persistActor
  rw [hid, hib]
  dsimp only
  cases hfind : db.actors.find? (fun r => decide (r.uri = uri)) with
  | some r =>
    have huri : r.uri = uri := by
      have := List.find?_some hfind
      simpa using this
    have hmem : r ∈ db.actors := List.mem_of_find?_eq_some hfind
    dsimp only
    rw [actorRowOk_upsert hib huri, hok, if_pos rfl, hcol2]
    rw [if_neg (by simp)]
    refine ⟨upsertRow d ib r, _, rfl, ?_, ?_, rfl, rfl, rfl, rfl, rfl, ?_, rfl, rfl⟩
    · have hfeq : (db.actors.filter fun x => decide (x.uri = uri)) = [r] :=
        singleton_of_length_le_one huniq
          (List.mem_filter.mpr ⟨hmem, by simp [huri]⟩)
      rw [filter_map_update_eq db.actors uri (upsertRow d ib r) (by simp [upsertRow, huri]),
        hfeq]
      rfl
    · simp [upsertRow, huri]
    · exact filter_map_update_ne db.actors uri (upsertRow d ib r)
        (by simp [upsertRow, huri])
  | none =>
    have hnone : ∀ x ∈ db.actors, ¬ (decide (x.uri = uri) = true) := by
      intro x hx
      exact List.find?_eq_none.mp hfind x hx
    have hfeq : (db.actors.filter fun x => decide (x.uri = uri)) = [] := by
      rw [List.filter_eq_nil_iff]
      exact hnone
    dsimp only
    rw [actorRowOk_fresh hib, hok, if_pos rfl, hcol2]
    rw [if_neg (by simp)]
    refine ⟨freshRow now db d uri ib, _, rfl, ?_, rfl, rfl, rfl, rfl, rfl, rfl, ?_, rfl, rfl⟩
    · rw [List.filter_append, hfeq]
      simp [freshRow]
    · rw [List.filter_append]
      simp [freshRow]

/-- Last-write-wins induction for a nonempty descriptor sequence aimed at
one URI. -/
theorem persistSeq_last_write (now : Nat) (uri : String) :
    ∀ (ds : List APActor) (d0 : APActor) (db : DB),
    (∀ d ∈ d0 :: ds, d.id = some uri ∧ (∃ ib, d.inboxId = some ib)
        ∧ descriptorOk uri d = true ∧ collidesAgainst db.actors uri d = false) →
    (db.actors.filter fun x => decide (x.uri = uri)).length ≤ 1 →
    ∃ db1, persistSeq now db (d0 :: ds) = .ok db1
      ∧ (∃ r, (db1.actors.filter fun x => decide (x.uri = uri)) = [r]
          ∧ r.uri = uri
          ∧ r.handle = ((d0 :: ds).getLast (List.cons_ne_nil d0 ds)).handle
          ∧ r.name = ((d0 :: ds).getLast (List.cons_ne_nil d0 ds)).name
          ∧ some r.inbox_url = ((d0 :: ds).getLast (List.cons_ne_nil d0 ds)).inboxId
          ∧ r.shared_inbox_url = ((d0 :: ds).getLast (List.cons_ne_nil d0 ds)).sharedInbox
          ∧ r.url = ((d0 :: ds).getLast (List.cons_ne_nil d0 ds)).url)
      ∧ (db1.actors.filter fun x => decide (x.uri ≠ uri))
          = (db.actors.filter fun x => decide (x.uri ≠ uri)) := by
  intro ds
  induction ds with
  | nil =>
    intro d0 db hall huniq
    obtain ⟨hid, ⟨ib, hib⟩, hok, hcol⟩ := hall d0 (List.mem_cons_self d0 [])
    obtain ⟨r, db1, hpa, hfeq, huri, hh, hn, hi, hs, hu, hfne, -, -⟩ :=
      persistActor_target hid hib hok hcol huniq
    refine ⟨db1, ?_, ⟨r, hfeq, huri, hh, hn, ?_, hs, hu⟩, hfne⟩
    · unfold persistSeq
      rw [hpa]
      rfl
    · show some r.inbox_url = d0.inboxId
      rw [hi, hib]
  | cons d1 ds2 ih =>
    intro d0 db hall huniq
    obtain ⟨hid, ⟨ib, hib⟩, hok, hcol⟩ := hall d0 (List.mem_cons_self d0 (d1 :: ds2))
    obtain ⟨r, db1, hpa, hfeq, huri, hh, hn, hi, hs, hu, hfne, -, -⟩ :=
      persistActor_target hid hib hok hcol huniq
    have hall1 : ∀ d ∈ d1 :: ds2, d.id = some uri ∧ (∃ ib2, d.inboxId = some ib2)
        ∧ descriptorOk uri d = true ∧ collidesAgainst db1.actors uri d = false := by
      intro d hd
      obtain ⟨h1, h2, h3, h4⟩ := hall d (List.mem_cons_of_mem d0 hd)
      refine ⟨h1, h2, h3, ?_⟩
      unfold collidesAgainst
      rw [any_restrict, hfne, ← any_restrict]
      exact h4
    have huniq1 : (db1.actors.filter fun x => decide (x.uri = uri)).length ≤ 1 := by
      rw [hfeq]
      exact Nat.le_refl 1
    obtain ⟨db2, hrun, hrow, hfne2⟩ := ih d1 db1 hall1 huniq1
    refine ⟨db2, ?_, ?_, by rw [hfne2, hfne]⟩
    · unfold persistSeq
      rw [hpa]
      exact hrun
    · rw [List.getLast_cons (List.cons_ne_nil d1 ds2)]
      exact hrow

/-- Claim C5: for one URI and a sequence of complete descriptors carrying
it, applying the upsert for each descriptor in order succeeds and leaves
exactly one actor row for that URI whose handle, display name, inbox,
shared inbox and profile URL are those of the last descriptor, while the
rows of all other URIs are exactly as before (last-write-wins
idempotence). -/
theorem c5_upsert_last_write_wins (now : Nat) (db : DB) (uri : String)
    (d0 : APActor) (ds : List APActor)
    (hall : ∀ d ∈ d0 :: ds, d.id = some uri ∧ (∃ ib, d.inboxId = some ib)
        ∧ descriptorOk uri d = true ∧ collidesAgainst db.actors uri d = false)
    (huniq : (db.actors.filter fun x => decide (x.uri = uri)).length ≤ 1) :
    ∃ db1, persistSeq now db (d0 :: ds) = .ok db1
      ∧ (∃ r, (db1.actors.filter fun x => decide (x.uri = uri)) = [r]
          ∧ r.uri = uri
          ∧ r.handle = ((d0 :: ds).getLast (List.cons_ne_nil d0 ds)).handle
          ∧ r.name = ((d0 :: ds).getLast (List.cons_ne_nil d0 ds)).name
          ∧ some r.inbox_url = ((d0 :: ds).getLast (List.cons_ne_nil d0 ds)).inboxId
          ∧ r.shared_inbox_url = ((d0 :: ds).getLast (List.cons_ne_nil d0 ds)).sharedInbox
          ∧ r.url = ((d0 :: ds).getLast (List.cons_ne_nil d0 ds)).url)
      ∧ (db1.actors.filter fun x => decide (x.uri ≠ uri))
          = (db.actors.filter fun x => decide (x.uri ≠ uri)) :=
  persistSeq_last_write now uri ds d0 db hall huniq

/-- A second version of carol's document: every mutable field differs. -/
def carolV2 : APActor :=
  ⟨some "https://remote.example/users/carol",
   some "https://remote.example/users/carol/inbox2",
   "@carol2@remote.example", some "Carol Two",
   some "https://remote.example/inbox", some "https://remote.example/@carol"⟩

/-- Claim C5 (witness): persisting carol's document twice with changed
fields leaves one row carrying the second document's fields. -/
theorem c5_upsert_last_write_wins_witness :
    ∃ db1, persistSeq 1 demoDb [carol, carolV2] = .ok db1
      ∧ (∃ r, (db1.actors.filter fun x =>
            decide (x.uri = "https://remote.example/users/carol")) = [r]
          ∧ r.uri = "https://remote.example/users/carol"
          ∧ r.handle = (([carol, carolV2]).getLast
              (List.cons_ne_nil carol [carolV2])).handle
          ∧ r.name = (([carol, carolV2]).getLast
              (List.cons_ne_nil carol [carolV2])).name
          ∧ some r.inbox_url = (([carol, carolV2]).getLast
              (List.cons_ne_nil carol [carolV2])).inboxId
          ∧ r.shared_inbox_url = (([carol, carolV2]).getLast
              (List.cons_ne_nil carol [carolV2])).sharedInbox
          ∧ r.url = (([carol, carolV2]).getLast
              (List.cons_ne_nil carol [carolV2])).url)
      ∧ (db1.actors.filter fun x =>
            decide (x.uri ≠ "https://remote.example/users/carol"))
          = (demoDb.actors.filter fun x =>
            decide (x.uri ≠ "https://remote.example/users/carol")) :=
  c5_upsert_last_write_wins 1 demoDb "https://remote.example/users/carol" carol [carolV2]
    (by
      intro d hd
      rcases List.mem_cons.mp hd with h | h
      · subst h
        exact ⟨rfl, ⟨_, rfl⟩, rfl, rfl⟩
      · rcases List.mem_singleton.mp h with h2
        subst h2
        exact ⟨rfl, ⟨_, rfl⟩, rfl, rfl⟩)
    (Nat.zero_le 1)

/-- Number of Mention rows for a given `(post, mentioned actor)` pair. -/
def mentionPairCount (db : DB) (postId aid : Nat) : Nat :=
  db.mentions.countP fun m => decide (m.post_id = postId ∧ m.mentioned_actor_id = aid)

/-- Number of mention notifications for a `(recipient, post, author)`
triple. -/
def mentionNotifCount (db : DB) (postId authorId rid : Nat) : Nat :=
  db.notifications.countP fun nr => decide (nr.type = NotifType.mention
    ∧ nr.related_post_id = some postId ∧ nr.related_actor_id = some authorId
    ∧ nr.recipient_actor_id = rid)

theorem addMentionRows_frame (now postId : Nat) :
    ∀ (ids : List Nat) (db : DB),
    (addMentionRows now postId db ids).users = db.users
    ∧ (addMentionRows now postId db ids).actors = db.actors
    ∧ (addMentionRows now postId db ids).follows = db.follows
    ∧ (addMentionRows now postId db ids).posts = db.posts
    ∧ (addMentionRows now postId db ids).notifications = db.notifications := by
  intro ids
  induction ids with
  | nil => intro db; exact ⟨rfl, rfl, rfl, rfl, rfl⟩
  | cons i is ih =>
    intro db
    exact ih { db with mentions := db.mentions ++ [⟨db.nextMentionId, postId, i, now⟩],
                       nextMentionId := db.nextMentionId + 1 }

theorem addNotifRows_frame (now : Nat) :
    ∀ (rows : List NewNotifRow) (db : DB),
    (addNotifRows now db rows).users = db.users
    ∧ (addNotifRows now db rows).actors = db.actors
    ∧ (addNotifRows now db rows).follows = db.follows
    ∧ (addNotifRows now db rows).posts = db.posts
    ∧ (addNotifRows now db rows).mentions = db.mentions := by
  intro rows
  induction rows with
  | nil => intro db; exact ⟨rfl, rfl, rfl, rfl, rfl⟩
  | cons n ns ih =>
    intro db
    exact ih _

/-- The mentioned-actor ids recorded for `postId` after a batch append:
the old ones followed by the appended ids, in order. -/
theorem addMentionRows_post_ids (now postId : Nat) :
    ∀ (ids : List Nat) (db : DB),
    ((addMentionRows now postId db ids).mentions.filter
        fun m => decide (m.post_id = postId)).map (fun m => m.mentioned_actor_id)
      = ((db.mentions.filter fun m => decide (m.post_id = postId)).map
          fun m => m.mentioned_actor_id) ++ ids := by
  intro ids
  induction ids with
  | nil => intro db; simp [addMentionRows]
  | cons i is ih =>
    intro db
    rw [show addMentionRows now postId db (i :: is)
        = addMentionRows now postId
            { db with mentions := db.mentions ++ [⟨db.nextMentionId, postId, i, now⟩],
                      nextMentionId := db.nextMentionId + 1 } is from rfl]
    rw [ih]
    simp [List.filter_append]

theorem addMentionRows_countP (now postId : Nat) :
    ∀ (ids : List Nat) (db : DB) (aid : Nat),
    mentionPairCount (addMentionRows now postId db ids) postId aid
      = mentionPairCount db postId aid + ids.countP (fun i => decide (i = aid)) := by
  intro ids
  induction ids with
  | nil => intro db aid; simp [addMentionRows]
  | cons i is ih =>
    intro db aid
    rw [show addMentionRows now postId db (i :: is)
        = addMentionRows now postId
            { db with mentions := db.mentions ++ [⟨db.nextMentionId, postId, i, now⟩],
                      nextMentionId := db.nextMentionId + 1 } is from rfl]
    rw [ih]
    unfold mentionPairCount
    rw [List.countP_append, List.countP_cons]
    by_cases h : i = aid
    · simp [h, List.countP_cons]
      omega
    · simp [h, List.countP_cons]

theorem addNotifRows_countP (now postId authorId rid : Nat) :
    ∀ (rows : List NewNotifRow) (db : DB),
    mentionNotifCount (addNotifRows now db rows) postId authorId rid
      = mentionNotifCount db postId authorId rid
        + rows.countP (fun n => decide (n.type = NotifType.mention
            ∧ n.related_post_id = some postId ∧ n.related_actor_id = some authorId
            ∧ n.recipient_actor_id = rid)) := by
  intro rows
  induction rows with
  | nil => intro db; simp [addNotifRows]
  | cons n ns ih =>
    intro db
    rw [show addNotifRows now db (n :: ns)
        = addNotifRows now
            { db with notifications := db.notifications ++ [notifRowOf now db.nextNotifId n],
                      nextNotifId := db.nextNotifId + 1 } ns from rfl]
    rw [ih]
    unfold mentionNotifCount
    rw [List.countP_append, List.countP_cons]
    simp [List.countP_cons, notifRowOf]
    ring

/-- The recipients that carry a mention notification for `(post, author)`
after a batch append of rows all aimed at that pair: the old recipients
followed by the appended ones. -/
theorem addNotifRows_recipients (now postId authorId : Nat) :
    ∀ (rows : List NewNotifRow) (db : DB),
    (∀ n ∈ rows, n.type = NotifType.mention ∧ n.related_post_id = some postId
        ∧ n.related_actor_id = some authorId) →
    ((addNotifRows now db rows).notifications.filter
        fun nr => decide (nr.type = NotifType.mention
          ∧ nr.related_post_id = some postId
          ∧ nr.related_actor_id = some authorId)).map (fun nr => nr.recipient_actor_id)
      = ((db.notifications.filter
          fun nr => decide (nr.type = NotifType.mention
            ∧ nr.related_post_id = some postId
            ∧ nr.related_actor_id = some authorId)).map
          fun nr => nr.recipient_actor_id) ++ rows.map (fun n => n.recipient_actor_id) := by
  intro rows
  induction rows with
  | nil => intro db _; simp [addNotifRows]
  | cons n ns ih =>
    intro db hall
    obtain ⟨h1, h2, h3⟩ := hall n (List.mem_cons_self n ns)
    rw [show addNotifRows now db (n :: ns)
        = addNotifRows now
            { db with notifications := db.notifications ++ [notifRowOf now db.nextNotifId n],
                      nextNotifId := db.nextNotifId + 1 } ns from rfl]
    rw [ih _ (fun m hm => hall m (List.mem_cons_of_mem n hm))]
    simp [List.filter_append, notifRowOf, h1, h2, h3]

/-- Exactly one row of a list carries a given id when the projected ids are
pairwise distinct and a row with that id is present. -/
theorem countP_id_eq_one {l : List ActorRow} (hnd : (l.map (fun a => a.id)).Nodup)
    {a : ActorRow} (ha : a ∈ l) :
    l.countP (fun x => decide (x.id = a.id)) = 1 := by
  induction l with
  | nil => cases ha
  | cons x xs ih =>
    rw [List.map_cons, List.nodup_cons] at hnd
    obtain ⟨hx, hnd2⟩ := hnd
    rcases List.mem_cons.mp ha with h | h
    · subst h
      have hz : xs.countP (fun y => decide (y.id = a.id)) = 0 := by
        rw [List.countP_eq_zero]
        intro y hy
        simp only [decide_eq_true_eq]
        intro hc
        exact hx (hc ▸ List.mem_map_of_mem (fun b => b.id) hy)
      rw [List.countP_cons, hz]
      simp
    · have hne : ¬ (x.id = a.id) := by
        intro hc
        exact hx (hc ▸ List.mem_map_of_mem (fun b => b.id) h)
      rw [List.countP_cons, ih hnd2 h]
      simp [hne]

theorem mentionPairCount_congr {dbA dbB : DB} (h : dbA.mentions = dbB.mentions)
    (postId aid : Nat) : mentionPairCount dbA postId aid = mentionPairCount dbB postId aid := by
  unfold mentionPairCount
  rw [h]

theorem mentionMessage_ne (author : ActorRow) : mentionMessage author ≠ "" := by
  unfold mentionMessage
  intro h
  have hd := congrArg String.data h
  have hlen := congrArg List.length hd
  rw [String.data_append, List.length_append] at hlen
  have h24 : (" mentioned you in a post".data).length = 24 := rfl
  rw [h24] at hlen
  simp at hlen

theorem contains_nil_nat (a : Nat) : ([] : List Nat).contains a = false := rfl

/-- On a post with no recorded mentions, `saveMentions` records every
incoming actor. -/
theorem saveMentions_fresh (now postId : Nat) (db : DB) (actorsIn : List ActorRow)
    (hm0 : db.mentions.filter (fun m => decide (m.post_id = postId)) = []) :
    saveMentions now db postId actorsIn
      = addMentionRows now postId db (actorsIn.map fun a => a.id) := by
  cases actorsIn with
  | nil => rfl
  | cons a0 rest =>
    unfold saveMentions
    rw [if_neg (by simp)]
    rw [hm0]
    simp [contains_nil_nat]

/-- When every incoming actor is already recorded for the post,
`saveMentions` is the identity. -/
theorem saveMentions_stale (now postId : Nat) (db : DB) (actorsIn : List ActorRow)
    (hall : ∀ a ∈ actorsIn,
      ((db.mentions.filter fun m => decide (m.post_id = postId)).map
        fun m => m.mentioned_actor_id).contains a.id = true) :
    saveMentions now db postId actorsIn = db := by
  cases actorsIn with
  | nil => rfl
  | cons a0 rest =>
    unfold saveMentions
    rw [if_neg (by simp)]
    have hfilter : ((a0 :: rest).filter fun a =>
        !(((db.mentions.filter fun m => decide (m.post_id = postId)).map
          fun m => m.mentioned_actor_id).contains a.id)) = [] := by
      rw [List.filter_eq_nil_iff]
      intro a ha
      rw [hall a ha]
      simp
    rw [hfilter]
    rfl

/-- With the author present and no prior mention notification for
`(post, author)`, the notification step inserts one row per incoming actor
other than the author. -/
theorem createMentionNotifications_fresh (now postId authorId : Nat) (db : DB)
    (actorsIn : List ActorRow) (author : ActorRow)
    (hauthor : db.actors.find? (fun r => decide (r.id = authorId)) = some author)
    (hn0 : db.notifications.filter (fun nr => decide (nr.type = NotifType.mention
        ∧ nr.related_post_id = some postId ∧ nr.related_actor_id = some authorId)) = []) :
    createMentionNotifications now db postId authorId actorsIn
      = .ok (addNotifRows now db
          ((actorsIn.filter fun a => decide (a.id ≠ authorId)).map
            fun a => ⟨a.id, NotifType.mention, some postId, some authorId,
              mentionMessage author, 0⟩)) := by
  cases actorsIn with
  | nil => rfl
  | cons a0 rest =>
    unfold createMentionNotifications
    rw [if_neg (by simp), hauthor]
    dsimp only
    rw [hn0]
    have hrows : ∀ row ∈ ((a0 :: rest).filter fun a => decide (a.id ≠ authorId)).map
        (fun a => (⟨a.id, NotifType.mention, some postId, some authorId,
          mentionMessage author, 0⟩ : NewNotifRow)), notifRowOk row = true := by
      intro row hrow
      obtain ⟨a, -, rfl⟩ := List.mem_map.mp hrow
      simp [notifRowOk, mentionMessage_ne author]
    unfold insertNotifications
    simp only [contains_nil_nat, List.map_nil, Bool.not_false, Bool.and_true]
    rw [if_pos (List.all_eq_true.mpr hrows)]

/-- With the author present and every non-author actor already notified for
`(post, author)`, the notification step is a no-op. -/
theorem createMentionNotifications_stale (now postId authorId : Nat) (db : DB)
    (actorsIn : List ActorRow) (author : ActorRow)
    (hauthor : db.actors.find? (fun r => decide (r.id = authorId)) = some author)
    (hall : ∀ a ∈ actorsIn, a.id ≠ authorId →
      ((db.notifications.filter fun nr => decide (nr.type = NotifType.mention
          ∧ nr.related_post_id = some postId
          ∧ nr.related_actor_id = some authorId)).map
        fun nr => nr.recipient_actor_id).contains a.id = true) :
    createMentionNotifications now db postId authorId actorsIn = .ok db := by
  cases actorsIn with
  | nil => rfl
  | cons a0 rest =>
    unfold createMentionNotifications
    rw [if_neg (by simp), hauthor]
    dsimp only
    have hfilter : ((a0 :: rest).filter fun a => decide (a.id ≠ authorId)
        && !(((db.notifications.filter fun nr => decide (nr.type = NotifType.mention
            ∧ nr.related_post_id = some postId
            ∧ nr.related_actor_id = some authorId)).map
            fun nr => nr.recipient_actor_id).contains a.id)) = [] := by
      rw [List.filter_eq_nil_iff]
      intro a ha
      by_cases hne : a.id = authorId
      · simp [hne]
      · rw [hall a ha hne]
        simp
    rw [hfilter]
    rfl

/-- Claim C6: on a fresh post (no mention rows, no mention notifications
for the `(post, author)` pair yet), running the resolved mention pipeline
(`saveMentions` then `createMentionNotifications`) twice in sequence leaves
exactly one Mention row per `(post, mentioned actor)` pair and exactly one
mention Notification per `(recipient, post, author)` triple for every
mentioned actor other than the author, and the author never receives one;
the second run changes nothing. -/
theorem c6_mention_pipeline_idempotent (now1 now2 postId authorId : Nat) (db : DB)
    (actorsIn : List ActorRow) (author : ActorRow)
    (hnodup : (actorsIn.map fun a => a.id).Nodup)
    (hauthor : db.actors.find? (fun r => decide (r.id = authorId)) = some author)
    (hm0 : db.mentions.filter (fun m => decide (m.post_id = postId)) = [])
    (hn0 : db.notifications.filter (fun nr => decide (nr.type = NotifType.mention
        ∧ nr.related_post_id = some postId ∧ nr.related_actor_id = some authorId)) = []) :
    ∃ db1, processMentionsResolved now1 db postId authorId actorsIn = .ok db1
      ∧ processMentionsResolved now2 db1 postId authorId actorsIn = .ok db1
      ∧ (∀ a ∈ actorsIn, mentionPairCount db1 postId a.id = 1)
      ∧ (∀ a ∈ actorsIn, a.id ≠ authorId →
          mentionNotifCount db1 postId authorId a.id = 1)
      ∧ mentionNotifCount db1 postId authorId authorId = 0 := by
  obtain ⟨hmu, hma, hmf, hmp, hmn⟩ :=
    addMentionRows_frame now1 postId (actorsIn.map fun a => a.id) db
  have hauthorm : (addMentionRows now1 postId db
      (actorsIn.map fun a => a.id)).actors.find?
      (fun r => decide (r.id = authorId)) = some author := by
    rw [hma]; exact hauthor
  have hn0m : (addMentionRows now1 postId db
      (actorsIn.map fun a => a.id)).notifications.filter
      (fun nr => decide (nr.type = NotifType.mention
        ∧ nr.related_post_id = some postId
        ∧ nr.related_actor_id = some authorId)) = [] := by
    rw [hmn]; exact hn0
  obtain ⟨hnu, hna, hnf, hnp, hnm⟩ := addNotifRows_frame now1
    ((actorsIn.filter fun a => decide (a.id ≠ authorId)).map
      fun a => (⟨a.id, NotifType.mention, some postId, some authorId,
        mentionMessage author, 0⟩ : NewNotifRow))
    (addMentionRows now1 postId db (actorsIn.map fun a => a.id))
  refine ⟨addNotifRows now1 (addMentionRows now1 postId db (actorsIn.map fun a => a.id))
      ((actorsIn.filter fun a => decide (a.id ≠ authorId)).map
        fun a => ⟨a.id, NotifType.mention, some postId, some authorId,
          mentionMessage author, 0⟩), ?_, ?_, ?_, ?_, ?_⟩
  · unfold processMentionsResolved
    rw [saveMentions_fresh now1 postId db actorsIn hm0]
    rw [createMentionNotifications_fresh now1 postId authorId _ actorsIn author
      hauthorm hn0m]
  · have hids : (((addNotifRows now1
        (addMentionRows now1 postId db (actorsIn.map fun a => a.id))
        ((actorsIn.filter fun a => decide (a.id ≠ authorId)).map
          fun a => ⟨a.id, NotifType.mention, some postId, some authorId,
            mentionMessage author, 0⟩)).mentions.filter
          fun m => decide (m.post_id = postId)).map fun m => m.mentioned_actor_id)
        = actorsIn.map fun a => a.id := by
      rw [hnm, addMentionRows_post_ids now1 postId (actorsIn.map fun a => a.id) db, hm0]
      simp
    have hsave2 : saveMentions now2 (addNotifRows now1
        (addMentionRows now1 postId db (actorsIn.map fun a => a.id))
        ((actorsIn.filter fun a => decide (a.id ≠ authorId)).map
          fun a => ⟨a.id, NotifType.mention, some postId, some authorId,
            mentionMessage author, 0⟩)) postId actorsIn
        = addNotifRows now1
          (addMentionRows now1 postId db (actorsIn.map fun a => a.id))
          ((actorsIn.filter fun a => decide (a.id ≠ authorId)).map
            fun a => ⟨a.id, NotifType.mention, some postId, some authorId,
              mentionMessage author, 0⟩) := by
      apply saveMentions_stale
      intro a ha
      rw [hids]
      have hmem : a.id ∈ actorsIn.map fun x => x.id :=
        List.mem_map_of_mem _ ha
      exact List.elem_iff.mpr hmem
    have hrec : (((addNotifRows now1
        (addMentionRows now1 postId db (actorsIn.map fun a => a.id))
        ((actorsIn.filter fun a => decide (a.id ≠ authorId)).map
          fun a => ⟨a.id, NotifType.mention, some postId, some authorId,
            mentionMessage author, 0⟩)).notifications.filter
          fun nr => decide (nr.type = NotifType.mention
            ∧ nr.related_post_id = some postId
            ∧ nr.related_actor_id = some authorId)).map fun nr => nr.recipient_actor_id)
        = (actorsIn.filter fun a => decide (a.id ≠ authorId)).map fun a => a.id := by
      rw [addNotifRows_recipients now1 postId authorId _ _ ?hrows]
      case hrows =>
        intro n hn
        obtain ⟨a, -, rfl⟩ := List.mem_map.mp hn
        exact ⟨rfl, rfl, rfl⟩
      rw [hn0m]
      simp [List.map_map, Function.comp]
    have hauthor1 : (addNotifRows now1
        (addMentionRows now1 postId db (actorsIn.map fun a => a.id))
        ((actorsIn.filter fun a => decide (a.id ≠ authorId)).map
          fun a => ⟨a.id, NotifType.mention, some postId, some authorId,
            mentionMessage author, 0⟩)).actors.find?
        (fun r => decide (r.id = authorId)) = some author := by
      rw [hna, hma]; exact hauthor
    unfold processMentionsResolved
    rw [hsave2]
    apply createMentionNotifications_stale now2 postId authorId _ actorsIn author hauthor1
    intro a ha hne
    rw [hrec]
    have hmem2 : a.id ∈ (actorsIn.filter fun x => decide (x.id ≠ authorId)).map
        fun x => x.id :=
      List.mem_map_of_mem _ (List.mem_filter.mpr ⟨ha, by simp [hne]⟩)
    exact List.elem_iff.mpr hmem2
  · intro a ha
    have hz : mentionPairCount db postId a.id = 0 := by
      have hle : mentionPairCount db postId a.id
          ≤ db.mentions.countP (fun m => decide (m.post_id = postId)) := by
        apply List.countP_mono_left
        intro m _ hm
        simp only [decide_eq_true_eq] at hm ⊢
        exact hm.1
      rw [List.countP_eq_length_filter, hm0] at hle
      exact Nat.le_zero.mp hle
    have hone : (actorsIn.map fun x => x.id).countP
        (fun i => decide (i = a.id)) = 1 := by
      rw [List.countP_map]
      have hcompn : ((fun (i : Nat) => decide (i = a.id)) ∘ fun (x : ActorRow) => x.id)
          = fun (x : ActorRow) => decide (x.id = a.id) := rfl
      rw [hcompn]
      exact countP_id_eq_one hnodup ha
    rw [mentionPairCount_congr hnm postId a.id,
      addMentionRows_countP now1 postId (actorsIn.map fun a => a.id) db a.id, hz, hone]
  · intro a ha hne
    have hz : mentionNotifCount (addMentionRows now1 postId db
        (actorsIn.map fun x => x.id)) postId authorId a.id = 0 := by
      have hle : mentionNotifCount (addMentionRows now1 postId db
          (actorsIn.map fun x => x.id)) postId authorId a.id
          ≤ (addMentionRows now1 postId db
            (actorsIn.map fun x => x.id)).notifications.countP
            (fun nr => decide (nr.type = NotifType.mention
              ∧ nr.related_post_id = some postId
              ∧ nr.related_actor_id = some authorId)) := by
        apply List.countP_mono_left
        intro nr _ hm
        simp only [decide_eq_true_eq] at hm ⊢
        exact ⟨hm.1, hm.2.1, hm.2.2.1⟩
      rw [List.countP_eq_length_filter, hn0m] at hle
      exact Nat.le_zero.mp hle
    have hone : ((actorsIn.filter fun x => decide (x.id ≠ authorId)).map
        fun x => (⟨x.id, NotifType.mention, some postId, some authorId,
          mentionMessage author, 0⟩ : NewNotifRow)).countP
        (fun n => decide (n.type = NotifType.mention
          ∧ n.related_post_id = some postId ∧ n.related_actor_id = some authorId
          ∧ n.recipient_actor_id = a.id)) = 1 := by
      rw [List.countP_map]
      have hcomp : ((fun (n : NewNotifRow) => decide (n.type = NotifType.mention
          ∧ n.related_post_id = some postId
          ∧ n.related_actor_id = some authorId
          ∧ n.recipient_actor_id = a.id))
          ∘ fun (x : ActorRow) => (⟨x.id, NotifType.mention, some postId, some authorId,
            mentionMessage author, 0⟩ : NewNotifRow))
          = fun (x : ActorRow) => decide (x.id = a.id) := by
        funext x
        simp
      rw [hcomp]
      have hnd2 : ((actorsIn.filter fun x => decide (x.id ≠ authorId)).map
          fun x => x.id).Nodup :=
        List.Nodup.sublist (List.Sublist.map _ (List.filter_sublist actorsIn)) hnodup
      exact countP_id_eq_one hnd2 (List.mem_filter.mpr ⟨ha, by simp [hne]⟩)
    rw [addNotifRows_countP now1 postId authorId a.id, hz, hone]
  · have hz : mentionNotifCount (addMentionRows now1 postId db
        (actorsIn.map fun x => x.id)) postId authorId authorId = 0 := by
      have hle : mentionNotifCount (addMentionRows now1 postId db
          (actorsIn.map fun x => x.id)) postId authorId authorId
          ≤ (addMentionRows now1 postId db
            (actorsIn.map fun x => x.id)).notifications.countP
            (fun nr => decide (nr.type = NotifType.mention
              ∧ nr.related_post_id = some postId
              ∧ nr.related_actor_id = some authorId)) := by
        apply List.countP_mono_left
        intro nr _ hm
        simp only [decide_eq_true_eq] at hm ⊢
        exact ⟨hm.1, hm.2.1, hm.2.2.1⟩
      rw [List.countP_eq_length_filter, hn0m] at hle
      exact Nat.le_zero.mp hle
    have hzero : ((actorsIn.filter fun x => decide (x.id ≠ authorId)).map
        fun x => (⟨x.id, NotifType.mention, some postId, some authorId,
          mentionMessage author, 0⟩ : NewNotifRow)).countP
        (fun n => decide (n.type = NotifType.mention
          ∧ n.related_post_id = some postId ∧ n.related_actor_id = some authorId
          ∧ n.recipient_actor_id = authorId)) = 0 := by
      rw [List.countP_eq_zero]
      intro n hn
      obtain ⟨x, hx, rfl⟩ := List.mem_map.mp hn
      have := (List.mem_filter.mp hx).2
      simp only [decide_eq_true_eq] at this ⊢
      intro hc
      exact this hc.2.2.2
    rw [addNotifRows_countP now1 postId authorId authorId, hz, hzero]

/-- Claim C6 (witness): dave (actor 1) posts post 1 mentioning carol
(actor 2); the pipeline run twice yields one mention row and one
notification for carol and none for dave. -/
theorem c6_mention_pipeline_idempotent_witness :
    ∃ db1, processMentionsResolved 3 dbCarolPersisted 1 1 [carolRow] = .ok db1
      ∧ processMentionsResolved 4 db1 1 1 [carolRow] = .ok db1
      ∧ (∀ a ∈ [carolRow], mentionPairCount db1 1 a.id = 1)
      ∧ (∀ a ∈ [carolRow], a.id ≠ 1 → mentionNotifCount db1 1 1 a.id = 1)
      ∧ mentionNotifCount db1 1 1 1 = 0 :=
  c6_mention_pipeline_idempotent 3 4 1 1 dbCarolPersisted [carolRow] daveActor
    (by simp) rfl rfl rfl

/-! ### Lemmas about the mention scanner -/

theorem takeWhile_all_eq {p : Char → Bool} :
    ∀ {l : List Char}, (∀ c ∈ l, p c = true) → l.takeWhile p = l := by
  intro l
  induction l with
  | nil => intro _; rfl
  | cons c cs ih =>
    intro h
    rw [List.takeWhile_cons, h c (List.mem_cons_self c cs)]
    simp [ih fun x hx => h x (List.mem_cons_of_mem c hx)]

theorem takeWhile_append_stop {p : Char → Bool} {c : Char} {l2 : List Char}
    (hc : p c = false) :
    ∀ {l1 : List Char}, (∀ x ∈ l1, p x = true)
      → (l1 ++ c :: l2).takeWhile p = l1 := by
  intro l1
  induction l1 with
  | nil =>
    intro _
    simp [List.takeWhile_cons, hc]
  | cons x xs ih =>
    intro h
    rw [List.cons_append, List.takeWhile_cons, h x (List.mem_cons_self x xs)]
    simp [ih fun y hy => h y (List.mem_cons_of_mem x hy)]

theorem mem_takeWhile_sat {p : Char → Bool} :
    ∀ {l : List Char} {c : Char}, c ∈ l.takeWhile p → p c = true := by
  intro l
  induction l with
  | nil => intro c hc; cases hc
  | cons x xs ih =>
    intro c hc
    rw [List.takeWhile_cons] at hc
    by_cases hx : p x = true
    · rw [hx] at hc
      simp only [if_true] at hc
      rcases List.mem_cons.mp hc with h | h
      · rw [h]; exact hx
      · exact ih h
    · rw [Bool.eq_false_iff.mpr hx] at hc
      simp at hc

theorem findDomSplit_spec (run : List Char) :
    ∀ m k, findDomSplit run m = some k →
      1 ≤ k ∧ run.get? k = some '.'
        ∧ 2 ≤ ((run.drop (k + 1)).takeWhile Char.isAlpha).length := by
  intro m
  induction m with
  | zero => intro k h; cases h
  | succ m ih =>
    intro k h
    unfold findDomSplit at h
    split at h
    · rename_i hcond
      cases h
      exact ⟨Nat.succ_le_succ (Nat.zero_le m), hcond.1, hcond.2⟩
    · exact ih k h

theorem validDomainChars_shape {pre letters : List Char} (hpre : pre ≠ [])
    (hdc : ∀ c ∈ pre, isDomainChar c = true)
    (hla : ∀ c ∈ letters, Char.isAlpha c = true)
    (hlen : 2 ≤ letters.length) :
    validDomainChars (pre ++ '.' :: letters) = true := by
  unfold validDomainChars
  dsimp only
  have hrev : (pre ++ '.' :: letters).reverse
      = letters.reverse ++ '.' :: pre.reverse := by
    rw [List.reverse_append, List.reverse_cons]
    simp [List.append_assoc]
  rw [hrev]
  have htld : (letters.reverse ++ '.' :: pre.reverse).takeWhile Char.isAlpha
      = letters.reverse := by
    apply takeWhile_append_stop
    · rfl
    · intro x hx
      exact hla x (List.mem_reverse.mp hx)
  rw [htld]
  have hdrop : (letters.reverse ++ '.' :: pre.reverse).drop letters.reverse.length
      = '.' :: pre.reverse := List.drop_left _ _
  have hdrop1 : (letters.reverse ++ '.' :: pre.reverse).drop (letters.reverse.length + 1)
      = pre.reverse := by
    rw [← List.drop_drop, hdrop]
    rfl
  rw [hdrop, hdrop1]
  have hnonempty : pre.reverse.isEmpty = false := by
    cases hp : pre.reverse with
    | nil => exact absurd (List.reverse_eq_nil_iff.mp hp) hpre
    | cons x xs => rfl
  have hall : pre.reverse.all isDomainChar = true := by
    rw [List.all_eq_true]
    intro x hx
    exact hdc x (List.mem_reverse.mp hx)
  simp [hnonempty, hall, List.length_reverse, hlen]

theorem matchDomain_shape {rest2 : List Char} {dom rest3 : List Char}
    (h : matchDomain rest2 = some (dom, rest3)) :
    ∃ pre letters, dom = pre ++ '.' :: letters ∧ pre ≠ []
      ∧ (∀ c ∈ pre, isDomainChar c = true)
      ∧ (∀ c ∈ letters, Char.isAlpha c = true) ∧ 2 ≤ letters.length := by
  unfold matchDomain at h
  dsimp only at h
  split at h
  · cases h
  · rename_i k hfs
    simp only [Option.some.injEq, Prod.mk.injEq] at h
    obtain ⟨hdom, -⟩ := h
    obtain ⟨hk1, hget, hlen⟩ := findDomSplit_spec _ _ _ hfs
    refine ⟨(rest2.takeWhile isDomainChar).take k,
      ((rest2.takeWhile isDomainChar).drop (k + 1)).takeWhile Char.isAlpha,
      hdom.symm, ?_, ?_, ?_, hlen⟩
    · have hklt : k < (rest2.takeWhile isDomainChar).length :=
        List.get?_eq_some.mp hget |>.1
      have : ((rest2.takeWhile isDomainChar).take k).length = k := by
        rw [List.length_take]
        omega
      intro hc
      rw [hc] at this
      simp at this
      omega
    · intro c hc
      exact mem_takeWhile_sat (List.take_subset _ _ hc)
    · intro c hc
      exact mem_takeWhile_sat hc

theorem validMentionToken_name {name0 : List Char}
    (hall : ∀ c ∈ name0, isNameChar c = true) (hne : name0 ≠ []) :
    validMentionToken ⟨name0⟩ = true := by
  unfold validMentionToken
  dsimp only
  rw [takeWhile_all_eq hall, List.drop_length]
  cases name0 with
  | nil => exact absurd rfl hne
  | cons c csx => simp

theorem validMentionToken_full {name0 dom : List Char}
    (hall : ∀ c ∈ name0, isNameChar c = true) (hne : name0 ≠ [])
    (hdomv : validDomainChars dom = true) :
    validMentionToken ⟨name0 ++ '@' :: dom⟩ = true := by
  unfold validMentionToken
  dsimp only
  rw [takeWhile_append_stop rfl hall, List.drop_left]
  cases name0 with
  | nil => exact absurd rfl hne
  | cons c csx => simp [hdomv]

/-- Every token the capture group produces matches the mention grammar. -/
theorem matchName_valid {cs : List Char} {tok : String} {rest : List Char}
    (h : matchName cs = some (tok, rest)) : validMentionToken tok = true := by
  have hall : ∀ c ∈ cs.takeWhile isNameChar, isNameChar c = true :=
    fun c hc => mem_takeWhile_sat hc
  unfold matchName at h
  dsimp only at h
  split at h
  · exact Option.noConfusion h
  · rename_i hnemp
    have hne : cs.takeWhile isNameChar ≠ [] := by
      intro hc
      rw [hc] at hnemp
      exact hnemp rfl
    split at h
    · rename_i rest2 heq
      cases hmd : matchDomain rest2 with
      | none =>
        rw [hmd] at h
        dsimp only at h
        simp only [Option.some.injEq, Prod.mk.injEq] at h
        obtain ⟨htok, -⟩ := h
        subst htok
        exact validMentionToken_name hall hne
      | some pr =>
        obtain ⟨dom, rest3⟩ := pr
        rw [hmd] at h
        dsimp only at h
        simp only [Option.some.injEq, Prod.mk.injEq] at h
        obtain ⟨htok, -⟩ := h
        subst htok
        obtain ⟨pre, letters, hshape, hpre, hdc, hla, hlen⟩ := matchDomain_shape hmd
        rw [hshape]
        exact validMentionToken_full hall hne (validDomainChars_shape hpre hdc hla hlen)
    · simp only [Option.some.injEq, Prod.mk.injEq] at h
      obtain ⟨htok, -⟩ := h
      subst htok
      exact validMentionToken_name hall hne

/-- One unfolding step of the scanner at a nonempty input. -/
theorem scanAux_cons (fuel : Nat) (c : Char) (rest : List Char) (atStart : Bool) :
    scanAux (fuel + 1) (c :: rest) atStart
      = if atStart && decide (c = '@') then
          match matchName rest with
          | some (tok, rest2) => tok :: scanAux fuel rest2 false
          | none => scanAux fuel rest false
        else if isJsWs c then
          match rest with
          | c2 :: rest2 =>
            if c2 = '@' then
              match matchName rest2 with
              | some (tok, rest3) => tok :: scanAux fuel rest3 false
              | none => scanAux fuel rest false
            else scanAux fuel rest false
          | [] => scanAux fuel rest false
        else scanAux fuel rest false := rfl

/-- Every raw token the scanner emits matches the mention grammar. -/
theorem scanAux_valid : ∀ (fuel : Nat) (cs : List Char) (b : Bool),
    ∀ t ∈ scanAux fuel cs b, validMentionToken t = true := by
  intro fuel
  induction fuel with
  | zero =>
    intro cs b t ht
    rw [show scanAux 0 cs b = [] from by cases cs <;> rfl] at ht
    cases ht
  | succ fuel ih =>
    intro cs b t ht
    cases cs with
    | nil =>
      rw [show scanAux (fuel + 1) [] b = [] from rfl] at ht
      cases ht
    | cons c rest =>
      rw [scanAux_cons] at ht
      split at ht
      · cases hmn : matchName rest with
        | some pr =>
          obtain ⟨tok, rest2⟩ := pr
          rw [hmn] at ht
          dsimp only at ht
          rcases List.mem_cons.mp ht with hh | hh
          · rw [hh]
            exact matchName_valid hmn
          · exact ih rest2 false t hh
        | none =>
          rw [hmn] at ht
          dsimp only at ht
          exact ih rest false t ht
      · split at ht
        · cases rest with
          | nil => exact ih [] false t ht
          | cons c2 rest2 =>
            dsimp only at ht
            by_cases hc2 : c2 = '@'
            · rw [if_pos hc2] at ht
              cases hmn : matchName rest2 with
              | some pr =>
                obtain ⟨tok, rest3⟩ := pr
                rw [hmn] at ht
                dsimp only at ht
                rcases List.mem_cons.mp ht with hh | hh
                · rw [hh]
                  exact matchName_valid hmn
                · exact ih rest3 false t hh
              | none =>
                rw [hmn] at ht
                dsimp only at ht
                exact ih (c2 :: rest2) false t ht
            · rw [if_neg hc2] at ht
              exact ih (c2 :: rest2) false t ht
        · exact ih rest false t ht

/-- The source's `includes`/`push` accumulator loop keeps exactly the first
occurrence of every token. -/
theorem foldl_pushUnique : ∀ (l : List String) (acc : List String),
    l.foldl pushUnique acc
      = acc ++ dedupFirst (l.filter fun t => decide (¬ t ∈ acc)) := by
  intro l
  induction l with
  | nil => intro acc; simp [dedupFirst]
  | cons t ts ih =>
    intro acc
    rw [List.foldl_cons]
    by_cases hmem : t ∈ acc
    · rw [show pushUnique acc t = acc from by simp [pushUnique, hmem]]
      rw [ih acc, List.filter_cons]
      simp [hmem]
    · rw [show pushUnique acc t = acc ++ [t] from by simp [pushUnique, hmem]]
      rw [ih (acc ++ [t]), List.filter_cons, if_pos (by simp [hmem])]
      rw [show dedupFirst (t :: (ts.filter fun u => decide (¬ u ∈ acc)))
          = t :: dedupFirst ((ts.filter fun u => decide (¬ u ∈ acc)).filter
              fun u => decide (u ≠ t)) from by rw [dedupFirst]]
      have hfeq : (ts.filter fun u => decide (¬ u ∈ acc ++ [t]))
          = ((ts.filter fun u => decide (¬ u ∈ acc)).filter
              fun u => decide (u ≠ t)) := by
        rw [List.filter_filter]
        apply List.filter_congr
        intro u _
        by_cases h1 : u ∈ acc <;> by_cases h2 : u = t <;> simp [h1, h2]
      rw [hfeq]
      simp [List.append_assoc]

theorem parseMentions_eq_dedupFirst (s : String) :
    parseMentions s = dedupFirst (scanTokens s) := by
  unfold parseMentions
  rw [foldl_pushUnique (scanTokens s) []]
  simp

theorem dedupFirst_sub : ∀ (n : Nat) (l : List String), l.length ≤ n →
    ∀ x ∈ dedupFirst l, x ∈ l := by
  intro n
  induction n with
  | zero =>
    intro l hl x hx
    have : l = [] := List.eq_nil_of_length_eq_zero (Nat.le_zero.mp hl)
    subst this
    simp [dedupFirst] at hx
  | succ n ih =>
    intro l hl x hx
    cases l with
    | nil => simp [dedupFirst] at hx
    | cons t ts =>
      rw [dedupFirst] at hx
      rcases List.mem_cons.mp hx with h | h
      · rw [h]
        exact List.mem_cons_self t ts
      · have hlen : (ts.filter fun u => decide (u ≠ t)).length ≤ n := by
          have := List.length_filter_le (fun u => decide (u ≠ t)) ts
          simp only [List.length_cons] at hl
          omega
        exact List.mem_cons_of_mem _
          (List.mem_of_mem_filter (ih _ hlen x h))

theorem dedupFirst_nodup_aux : ∀ (n : Nat) (l : List String), l.length ≤ n →
    (dedupFirst l).Nodup := by
  intro n
  induction n with
  | zero =>
    intro l hl
    have : l = [] := List.eq_nil_of_length_eq_zero (Nat.le_zero.mp hl)
    subst this
    simp [dedupFirst]
  | succ n ih =>
    intro l hl
    cases l with
    | nil => simp [dedupFirst]
    | cons t ts =>
      rw [dedupFirst, List.nodup_cons]
      have hlen : (ts.filter fun u => decide (u ≠ t)).length ≤ n := by
        have := List.length_filter_le (fun u => decide (u ≠ t)) ts
        simp only [List.length_cons] at hl
        omega
      refine ⟨?_, ih _ hlen⟩
      intro hmem
      have hx := dedupFirst_sub _ _ (Nat.le_refl _) t hmem
      have := (List.mem_filter.mp hx).2
      simp at this

theorem dedupFirst_nodup (l : List String) : (dedupFirst l).Nodup :=
  dedupFirst_nodup_aux l.length l (Nat.le_refl _)

/-- Claim C7: `parseMentions` on the documented example yields exactly
`["alice", "bob@example.com"]`; in general it equals the raw regex scan
with duplicates collapsed to the first occurrence (order of first
appearance), its result is duplicate-free, and every returned token matches
the grammar `[a-zA-Z0-9_.-]+` optionally followed by `@domain` with a TLD
of at least two letters. -/
theorem c7_parseMentions_spec :
    parseMentions "hi @alice and @bob@example.com @alice"
        = ["alice", "bob@example.com"]
    ∧ (∀ s : String, parseMentions s = dedupFirst (scanTokens s))
    ∧ (∀ s : String, (parseMentions s).Nodup)
    ∧ (∀ s : String, (parseMentions s).all validMentionToken = true) := by
  refine ⟨by rfl, parseMentions_eq_dedupFirst, ?_, ?_⟩
  · intro s
    rw [parseMentions_eq_dedupFirst]
    exact dedupFirst_nodup _
  · intro s
    rw [List.all_eq_true]
    intro t ht
    rw [parseMentions_eq_dedupFirst] at ht
    exact scanAux_valid _ _ _ t (dedupFirst_sub _ _ (Nat.le_refl _) t ht)

end Microblog
